import Mathlib

/-!
Shallow embedding of `bitcoinlib/wallets.py` (HD wallet management:
path algebra, key node store, wallet manager, UTXO ledger, coin
selection, transaction assembly) together with proofs of the spec's
claims about it.

Python strings are modelled as `List Char`; the three database tables
(`DbWallet`, `DbKey`, `DbTransaction`) as lists of records inside a
`Store`; a SQLAlchemy session is the `Store` threaded through each
operation.  Raised exceptions become an error value carried next to the
(already committed) store state, since the source commits eagerly and a
later exception does not roll earlier commits back.

The external elliptic-curve / network / transaction-codec capabilities
(`HDKey`, `Network`, `Transaction`, `Service`) are out of scope of the
source file; they enter as a parameter record `Ctx K` over an abstract
key-material type `K`.
-/

namespace BLWallets

abbrev Str := List Char

/-- `s.split("/")` of Python, on our character-list strings. -/
def splitSlash (s : Str) : List Str := s.splitOn '/'

/-- `"/".join(l)` of Python. -/
def joinSlash (l : List Str) : Str := List.intercalate ['/'] l

/-- One error value per distinct raise site of the source (plus the
Python builtin exceptions the source can run into). -/
inductive WErr where
  /-- `wallets.py:96` — wallet not found in `delete_wallet`. -/
  | walletNotFound
  /-- `wallets.py:101` — key still has unspent outputs, `delete_wallet` without force. -/
  | keyHasBalance (key_id : Nat)
  /-- `wallets.py:124` — empty index while normalizing a path. -/
  | emptyPathIndex
  /-- `wallets.py:147` — BIP44 path length out of the 1..6 range. -/
  | invalidPathLength (n : Nat)
  /-- `wallets.py:201` — key depth does not match path length in `from_key`. -/
  | depthMismatch (kdepth : Nat) (pathlen : Nat)
  /-- `wallets.py:356` — path argument is not a list. -/
  | pathNotList
  /-- `wallets.py:479` — no account key in `new_key`. -/
  | noMasterKey
  /-- `wallets.py:519` — account already exists in `new_account`. -/
  | accountExists
  /-- `wallets.py:525` — no depth-2 root key in `new_account`. -/
  | noAccountRoot
  /-- `wallets.py:549` — purpose of path differs from wallet purpose. -/
  | purposeMismatch (pathPurpose : Nat) (walletPurpose : Nat)
  /-- `wallets.py:553` — cointype of path differs from wallet network. -/
  | cointypeMismatch (pathCointype : Nat) (walletCointype : Nat)
  /-- `wallets.py:558` — purpose, cointype or account segment not hardened. -/
  | unhardenedPath
  /-- `wallets.py:625` — `HDWallet.key` found nothing (Python `KeyError`). -/
  | keyNotFound
  /-- `wallets.py:251` — `HDWalletKey.__init__` got an id without a row. -/
  | keyIdNotFound (key_id : Nat)
  /-- `wallets.py:768` — selection failed in `create_transaction`. -/
  | insufficientFunds
  /-- `wallets.py:776` — caller-supplied input array not implemented. -/
  | notImplemented
  /-- `wallets.py:798` — assembled transaction does not verify. -/
  | verifyFailed
  /-- Python `AttributeError`: attribute access on `None`. -/
  | attrError
  /-- Python `IndexError`: `s[-1]` on an empty string. -/
  | indexError
  /-- Python `ValueError`: `int()` on a non-numeric string. -/
  | valueError
  /-- SQLAlchemy `MultipleResultsFound` raised by `.scalar()`. -/
  | multipleResults
deriving Repr, DecidableEq

/-- Python `int(s)` restricted to what the source feeds it: a string of
decimal digits.  Anything else raises `ValueError`. -/
def pyInt (s : Str) : Except WErr Nat :=
  if s ≠ [] ∧ s.all (·.isDigit) then
    .ok (s.foldl (fun n c => 10 * n + (c.toNat - '0'.toNat)) 0)
  else .error .valueError

/-- Decimal rendering of a natural, Python `"%d" % n`. -/
def natStr (n : Nat) : Str := (toString n).data

/-- Recursion core of `replaceStr`: the fuel argument only bounds the
recursion depth (each step consumes at least one character, so a fuel of
`s.length` is never exhausted) and makes the function structurally
recursive, hence reducible by the kernel. -/
def replaceStrFuel (pat rep : Str) : Nat → Str → Str
  | _, [] => []
  | 0, s => s
  | fuel + 1, c :: cs =>
    if pat ≠ [] ∧ pat.isPrefixOf (c :: cs) then
      rep ++ replaceStrFuel pat rep fuel ((c :: cs).drop pat.length)
    else
      c :: replaceStrFuel pat rep fuel cs

/-- Python `s.replace(pat, rep)` for a non-empty pattern: replace every
non-overlapping occurrence, left to right.  (The source never calls
`replace` with an empty pattern.) -/
def replaceStr (s : Str) (pat rep : Str) : Str :=
  replaceStrFuel pat rep s.length s

/-- The hardening markers accepted by `normalize_path` (`"'HhPp"`). -/
def markers : Str := ['\'', 'H', 'h', 'P', 'p']

/-- The per-segment rewrite of `normalize_path` (`wallets.py:126-127`):
a trailing hardening marker becomes a single `'`. -/
def normLevel (level : Str) : Str :=
  match level.getLast? with
  | some c => if c ∈ markers then level.dropLast ++ ['\''] else level
  | none => level

/-- The loop body of `normalize_path` (`wallets.py:122-128`): raise on an
empty segment, otherwise rewrite the hardening suffix, keeping order. -/
def normalizeLevels : List Str → Except WErr (List Str)
  | [] => .ok []
  | level :: rest =>
    if level = [] then .error .emptyPathIndex
    else
      match normalizeLevels rest with
      | .error e => .error e
      | .ok r => .ok (normLevel level :: r)

/-- `normalize_path` (`wallets.py:113-131`): split on `/`, fail on an
empty segment, canonicalize hardening suffixes to `'`, rejoin, and strip
the trailing slash the loop appended. -/
def normalize_path (path : Str) : Except WErr Str :=
  match normalizeLevels (splitSlash path) with
  | .error e => .error e
  | .ok nlevels =>
    .ok (if ((nlevels.map (· ++ ['/'])).flatten).getLast? = some '/'
         then ((nlevels.map (· ++ ['/'])).flatten).dropLast
         else (nlevels.map (· ++ ['/'])).flatten)

/-- The dictionary returned by `parse_bip44_path` (`wallets.py:148-155`). -/
structure Bip44Path where
  isprivate : Bool
  purpose : Str
  cointype : Str
  account : Str
  change : Str
  address_index : Str
deriving Repr, DecidableEq

/-- `parse_bip44_path` (`wallets.py:134-155`): normalize, check the
segment count is between 1 and 6, and expose the positional fields
(empty string when the path is too short). -/
def parse_bip44_path (path : Str) : Except WErr Bip44Path :=
  match normalize_path path with
  | .error e => .error e
  | .ok np =>
    let pathl := splitSlash np
    if 0 < pathl.length ∧ pathl.length ≤ 6 then
      .ok {
        isprivate := pathl.head? = some ['m']
        purpose := (pathl.drop 1).headD []
        cointype := (pathl.drop 2).headD []
        account := (pathl.drop 3).headD []
        change := (pathl.drop 4).headD []
        address_index := (pathl.drop 5).headD [] }
    else .error (.invalidPathLength pathl.length)

/-! ## Data model: the three tables of `bitcoinlib.db` as the source uses them -/

/-- A `DbKey` row (the columns `wallets.py` reads and writes). -/
structure DbKeyRow where
  id : Nat
  wallet_id : Nat
  name : Str
  key_hex : Str
  purpose : Nat
  account_id : Nat
  depth : Nat
  change : Nat
  address_index : Nat
  key_wif : Str
  address : Str
  parent_id : Nat
  is_private : Bool
  path : Str
  key_type : Str
  balance : Nat
deriving Repr, DecidableEq

/-- A `DbTransaction` (UTXO ledger) row. -/
structure DbTransactionRow where
  id : Nat
  key_id : Nat
  tx_hash : Str
  confirmations : Nat
  output_n : Nat
  index : Nat
  value : Nat
  script : Str
  spend : Bool
deriving Repr, DecidableEq

/-- A `DbWallet` row. -/
structure DbWalletRow where
  id : Nat
  name : Str
  owner : Str
  network_name : Str
  purpose : Nat
  main_key_id : Nat
  balance : Nat
deriving Repr, DecidableEq

/-- The database state one SQLAlchemy session sees.  The `next_*` fields
model the autoincrement primary keys. -/
structure Store where
  wallets : List DbWalletRow
  keys : List DbKeyRow
  transactions : List DbTransactionRow
  next_key_id : Nat
  next_tx_id : Nat
deriving Repr, DecidableEq

/-- Outcome of a stateful operation: the source commits eagerly inside
helpers, so a raised exception still leaves the commits made so far in
the database — both constructors therefore carry the store. -/
inductive Res (α : Type) where
  | ok (a : α) (s : Store)
  | err (e : WErr) (s : Store)
deriving Repr, DecidableEq

/-- The draft transaction handle of the external `Transaction` codec:
`add_output`, `add_input` (returning sequential input ids) and `sign`
only accumulate; `verify` is a capability of the context. -/
structure TxDraft where
  network_name : Str
  outputs : List (Nat × Str)
  inputs : List (Str × Nat × Str)
  signatures : List (Str × Nat)
deriving Repr, DecidableEq

/-- The external capabilities the source file imports (`HDKey`,
`Network`, `Transaction`): key material is an abstract type `K` with the
accessors and the child-derivation operation `wallets.py` calls. -/
structure Ctx (K : Type) where
  extended_wif : K → Str
  key_hex : K → Str
  depth : K → Nat
  child_index : K → Nat
  address : K → Str
  key_type : K → Str
  public_byte : K → Str
  private_byte : K → Str
  subkey_for_path : K → Str → K
  from_wif : Str → K
  bip44_cointype : Str → Nat
  tx_verify : TxDraft → Bool

/-- The attributes of an open `HDWallet` session object that the
operations read (`wallets.py:388-413`); `default_account_id` is set to 0
at construction. -/
structure HDW where
  wallet_id : Nat
  name : Str
  purpose : Nat
  network_name : Str
  main_key_id : Nat
  default_account_id : Nat
deriving Repr, DecidableEq

/-! ## Query helpers -/

/-- SQLAlchemy `Query.scalar()`: `None` on an empty result, the row when
it is unique, `MultipleResultsFound` otherwise. -/
def scalar {α : Type} (l : List α) : Except WErr (Option α) :=
  match l with
  | [] => .ok none
  | [x] => .ok (some x)
  | _ => .error .multipleResults

/-- `filter_by(id=kid).first()`. -/
def getKeyById (s : Store) (kid : Nat) : Option DbKeyRow :=
  s.keys.find? (fun r => r.id == kid)

/-- `ORDER BY f ASC` (stable). -/
def orderByAsc {α : Type} (f : α → Nat) (l : List α) : List α :=
  List.insertionSort (fun a b => f a ≤ f b) l

/-- `ORDER BY f DESC` (stable). -/
def orderByDesc {α : Type} (f : α → Nat) (l : List α) : List α :=
  List.insertionSort (fun a b => f b ≤ f a) l

/-- `HDWallet.key` (`wallets.py:603-625`) applied to a numeric term, the
only way the source calls it internally: the id lookup (a `scalar()`
call) either hits or every later fallback — address, wif, name, all
string columns compared against a number — misses and a `KeyError` is
raised. -/
def wallet_key_by_id (s : Store) (kid : Nat) : Except WErr DbKeyRow :=
  match scalar (s.keys.filter (fun r => r.id == kid)) with
  | .error e => .error e
  | .ok (some r) => .ok r
  | .ok none => .error .keyNotFound

/-! ## Key node store -/

variable {K : Type}

/-- `HDWalletKey.from_key` (`wallets.py:164-215`) with an `HDKey` object
in hand (every internal caller goes through `from_key_object`).  Order
of operations, as in the source: global lookup by serialized key (no
wallet filter, line 189) returning the existing row; the depth/path
consistency check with the depth-3 account-import reinterpretation
(lines 194-202); lookup by raw key hex or serialized key (lines
204-205); only then the insert-and-commit (lines 209-215). -/
def from_key (C : Ctx K) (name : Str) (wallet_id : Nat) (k : K) (account_id : Nat)
    (network : Str) (change : Nat) (purpose : Nat) (parent_id : Nat) (path : Str)
    (s : Store) : Res Nat :=
  match s.keys.find? (fun r => r.key_wif == C.extended_wif k) with
  | some r => .ok r.id s
  | none =>
    let fixPath : Except WErr Str :=
      if C.depth k ≠ (splitSlash path).length - 1 then
        if path = ['m'] ∧ C.depth k = 3 then
          .ok (['m', '/'] ++ natStr purpose ++ ['\'', '/']
                ++ natStr (C.bip44_cointype network) ++ ['\'', '/']
                ++ natStr account_id ++ ['\''])
        else .error (.depthMismatch (C.depth k) ((splitSlash path).length - 1))
      else .ok path
    match fixPath with
    | .error e => .err e s
    | .ok path =>
      match s.keys.find? (fun r => r.key_hex == C.key_hex k || r.key_wif == C.extended_wif k) with
      | some r => .ok r.id s
      | none =>
        let nk : DbKeyRow := {
          id := s.next_key_id, wallet_id := wallet_id, name := name,
          key_hex := C.key_hex k, purpose := purpose, account_id := account_id,
          depth := C.depth k, change := change, address_index := C.child_index k,
          key_wif := C.extended_wif k, address := C.address k, parent_id := parent_id,
          is_private := true, path := path, key_type := C.key_type k, balance := 0 }
        .ok nk.id { s with keys := s.keys ++ [nk], next_key_id := s.next_key_id + 1 }

/-- The closest-ancestor walk (`wallets.py:362-365` and `564-567`): query
the full path, then repeatedly strip the last segment, stopping at the
first hit; an empty path string ends the loop.  The Python loop
re-splits the string it just re-joined each iteration, and `"/".join`
and `.split("/")` are mutually inverse on the segment lists involved, so
the loop is recursion on the segment list. -/
def walkUpFuel (s : Store) (wallet_id : Nat) : Nat → List Str → Option DbKeyRow
  | _, [] => none
  | 0, _ => none
  | fuel + 1, seg :: rest =>
    if joinSlash (seg :: rest) = [] then none
    else
      match s.keys.find? (fun r =>
          r.wallet_id == wallet_id && r.path == joinSlash (seg :: rest)) with
      | some r => some r
      | none => walkUpFuel s wallet_id fuel (seg :: rest).dropLast

/-- Entry point of the walk; a fuel of the segment count is exact, since
each iteration drops one segment. -/
def walkUp (s : Store) (wallet_id : Nat) (segs : List Str) : Option DbKeyRow :=
  walkUpFuel s wallet_id segs.length segs

/-- The derivation loop of `_create_keys_from_path`
(`wallets.py:372-381`): derive a child for each remaining segment and
register it through `from_key`.  `done` holds the segments already
consumed so `fullpath` can be rebuilt; `parent_id` is the id passed to
the insert — its caller starts it at `0` (line 352) and it is only
updated to the id of the node just registered. -/
def createLoop (C : Ctx K) (wallet_id account_id : Nat) (network : Str) (name : Str)
    (change purpose : Nat) (basepath : Str) :
    List Str → List Str → K → Nat → Nat → Store → Res (Nat × K)
  | _done, [], ck, _, lastId, s => .ok (lastId, ck) s
  | done, seg :: rest, ck, parent_id, _, s =>
    let ck' := C.subkey_for_path ck seg
    let fullpath := basepath ++ joinSlash (done ++ [seg])
    match from_key C name wallet_id ck' account_id network change purpose parent_id fullpath s with
    | .err e s' => .err e s'
    | .ok nid s' =>
      createLoop C wallet_id account_id network name change purpose basepath
        (done ++ [seg]) rest ck' nid nid s'

/-- `HDWallet._create_keys_from_path` (`wallets.py:349-383`).  `parentId`
and `parentKey` are the id and key material of the `HDWalletKey` passed
as `parent` (the `path`-is-a-list type check cannot fail here, the
argument is typed).  After normalizing the base path's trailing slash,
walk for the closest existing ancestor; if one strictly below the
requested base point exists, re-root at it (lines 366-370): recompute
the remaining segments by string replacement, fetch the ancestor via
`self.key` and restart from its key material.  Either way the loop runs
with `parent_id = 0`. -/
def create_keys_from_path (C : Ctx K) (parentId : Nat) (parentKey : K)
    (path : List Str) (wallet_id account_id : Nat) (network : Str) (name : Str)
    (basepath : Str) (change : Nat) (purpose : Nat) (s : Store) : Res (Nat × K) :=
  let basepath := if basepath ≠ [] ∧ basepath.getLast? ≠ some '/'
    then basepath ++ ['/'] else basepath
  let spath := basepath ++ joinSlash path
  match walkUp s wallet_id (splitSlash spath) with
  | some r =>
    if r.path ≠ basepath ∧ r.path ≠ basepath.dropLast then
      let path' := splitSlash (replaceStr (basepath ++ joinSlash path) (r.path ++ ['/']) [])
      let basepath' := r.path ++ ['/']
      match wallet_key_by_id s r.id with
      | .error e => .err e s
      | .ok r' =>
        createLoop C wallet_id account_id network name change purpose basepath'
          [] path' (C.from_wif r'.key_wif) 0 r'.id s
    else
      createLoop C wallet_id account_id network name change purpose basepath
        [] path parentKey 0 parentId s
  | none =>
    createLoop C wallet_id account_id network name change purpose basepath
      [] path parentKey 0 parentId s

/-! ## Wallet manager -/

/-- `HDWallet.keys` (`wallets.py:587-601`): a filtered view over the
wallet/purpose key rows.  Note the two extra filters the source adds:
`depth > 3` whenever `account_id` is given (line 591) and `depth > 4`
whenever `change` is given (line 594). -/
def wallet_keys (s : Store) (w : HDW) (account_id : Option Nat) (name : Option Str)
    (key_id : Option Nat) (change : Option Nat) (depth : Option Nat) : List DbKeyRow :=
  s.keys.filter (fun r =>
    r.wallet_id == w.wallet_id && r.purpose == w.purpose
    && (match account_id with | some a => r.account_id == a && decide (3 < r.depth) | none => true)
    && (match change with | some c => r.change == c && decide (4 < r.depth) | none => true)
    && (match depth with | some d => r.depth == d | none => true)
    && (match name with | some n => r.name == n | none => true)
    && (match key_id with | some kid => r.id == kid | none => true))

/-- The omitted-`account_id` branch of `new_account`
(`wallets.py:511-515`): order the wallet/purpose key rows by account id
descending and take the first.  `.first()` on an empty result is `None`,
so `None.account_id` raises `AttributeError`. -/
def next_account_id (s : Store) (w : HDW) : Except WErr Nat :=
  let scope := s.keys.filter (fun r => r.wallet_id == w.wallet_id && r.purpose == w.purpose)
  match (orderByDesc (fun r => r.account_id) scope).head? with
  | some r => .ok (r.account_id + 1)
  | none => .error .attrError

/-- The default account name `'Account #%d' % account_id`
(`wallets.py:517`). -/
def accountName (account_id : Nat) : Str :=
  "Account #".data ++ natStr account_id

/-- `HDWallet.new_account` (`wallets.py:509-541`): resolve the account
id (one above the current maximum when omitted), raise `AccountExists`
when `self.keys(account_id=account_id, depth=3)` is non-empty, fetch the
depth-2 root by `scalar()`, derive the account node from it, then its
`'0'` (payments) and `'1'` (change) children; return the account node. -/
def new_account (C : Ctx K) (w : HDW) (name : Str) (account_id : Option Nat)
    (s : Store) : Res (Nat × K) :=
  match (match account_id with
         | some a => Except.ok a
         | none => next_account_id s w) with
  | .error e => .err e s
  | .ok account_id =>
  let name := if name = [] then accountName account_id else name
  if wallet_keys s w (some account_id) none none none (some 3) ≠ [] then
    .err .accountExists s
  else
    match scalar (s.keys.filter (fun r =>
        r.wallet_id == w.wallet_id && r.purpose == w.purpose && r.depth == 2)) with
    | .error e => .err e s
    | .ok none => .err .noAccountRoot s
    | .ok (some accrootkey) =>
      match wallet_key_by_id s accrootkey.id with
      | .error e => .err e s
      | .ok aro =>
        let newpath := [natStr account_id ++ ['\'']]
        match create_keys_from_path C aro.id (C.from_wif aro.key_wif) newpath
            w.wallet_id account_id w.network_name name aro.path 0 w.purpose s with
        | .err e s' => .err e s'
        | .ok (accId, accK) s' =>
          match getKeyById s' accId with
          | none => .err (.keyIdNotFound accId) s'
          | some accRow =>
            match create_keys_from_path C accId accK [['0']] w.wallet_id account_id
                w.network_name (accRow.name ++ " Payments".data) accRow.path 0 w.purpose s' with
            | .err e s'' => .err e s''
            | .ok _ s'' =>
              match create_keys_from_path C accId accK [['1']] w.wallet_id account_id
                  w.network_name (accRow.name ++ " Change".data) accRow.path 0 w.purpose s'' with
              | .err e s3 => .err e s3
              | .ok _ s3 => .ok (accId, accK) s3

/-- `HDWallet.new_key` (`wallets.py:467-504`): resolve (or create, via
`new_account`) the depth-3 account key, compute the next address index
as one above the maximum among the depth-`max_depth` siblings of the
same account and change branch, and derive `[change, address_index]`
rooted at the account node. -/
def new_key (C : Ctx K) (w : HDW) (name : Str) (account_id : Option Nat)
    (change : Nat) (max_depth : Nat) (s : Store) : Res (Nat × K) :=
  let account_id := account_id.getD w.default_account_id
  match scalar (s.keys.filter (fun r =>
      r.wallet_id == w.wallet_id && r.purpose == w.purpose
      && r.account_id == account_id && r.depth == 3)) with
  | .error e => .err e s
  | .ok acckey? =>
    let afterAcc : Res DbKeyRow :=
      match acckey? with
      | some acckey => .ok acckey s
      | none =>
        match new_account C w [] (some account_id) s with
        | .err e s' => .err e s'
        | .ok (hkId, _) s' =>
          match getKeyById s' hkId with
          | some row => .ok row s'
          | none => .err .noMasterKey s'
    match afterAcc with
    | .err e s' => .err e s'
    | .ok acckey s' =>
      match wallet_key_by_id s' acckey.id with
      | .error e => .err e s'
      | .ok main_acc_key =>
        let prevkey := (orderByDesc (fun r => r.address_index)
          (s'.keys.filter (fun r =>
            r.wallet_id == w.wallet_id && r.purpose == w.purpose
            && r.account_id == account_id && r.change == change
            && r.depth == max_depth))).head?
        let address_index := match prevkey with
          | some p => p.address_index + 1
          | none => 0
        let newpath := [natStr change, natStr address_index]
        let bpath := main_acc_key.path ++ ['/']
        let name := if name = [] then "Key ".data ++ natStr address_index else name
        create_keys_from_path C main_acc_key.id (C.from_wif main_acc_key.key_wif)
          newpath w.wallet_id account_id w.network_name name bpath change w.purpose s'

/-- `HDWallet.new_key_change` (`wallets.py:506-507`). -/
def new_key_change (C : Ctx K) (w : HDW) (name : Str) (account_id : Nat)
    (s : Store) : Res (Nat × K) :=
  new_key C w name (some account_id) 1 5 s

/-- Python `s[-1]`: last character, `IndexError` on the empty string. -/
def lastCharOf (s : Str) : Except WErr Char :=
  match s.getLast? with
  | some c => .ok c
  | none => .error .indexError

/-- The strict-mode validation block of `key_for_path`
(`wallets.py:544-558`): parse the path; compare its purpose (0 when the
segment is absent) with the wallet's; compare its cointype with the
wallet network's BIP44 cointype; then require the cointype, purpose and
account segments to end in `'` — evaluated in that order, so a segment
that is absent (the empty string) raises `IndexError` from `s[-1]`
before any `UnhardenedPath` verdict. -/
def key_for_path_checks (C : Ctx K) (w : HDW) (path : Str) : Except WErr Unit :=
  match parse_bip44_path path with
  | .error e => .error e
  | .ok pathdict =>
    match (if pathdict.purpose = [] then .ok 0
           else pyInt (replaceStr pathdict.purpose ['\''] [])) with
    | .error e => .error e
    | .ok purpose =>
      if purpose ≠ w.purpose then .error (.purposeMismatch purpose w.purpose)
      else
        match (if pathdict.cointype = [] then .ok 0
               else pyInt (replaceStr pathdict.cointype ['\''] [])) with
        | .error e => .error e
        | .ok cointype =>
          if cointype ≠ C.bip44_cointype w.network_name then
            .error (.cointypeMismatch cointype (C.bip44_cointype w.network_name))
          else
            match lastCharOf pathdict.cointype with
            | .error e => .error e
            | .ok c1 =>
              if c1 ≠ '\'' then .error .unhardenedPath
              else
                match lastCharOf pathdict.purpose with
                | .error e => .error e
                | .ok c2 =>
                  if c2 ≠ '\'' then .error .unhardenedPath
                  else
                    match lastCharOf pathdict.account with
                    | .error e => .error e
                    | .ok c3 =>
                      if c3 ≠ '\'' then .error .unhardenedPath
                      else .ok ()

/-- `HDWallet.key_for_path` (`wallets.py:543-585`): optional strict
validation, then the closest-ancestor walk over the normalized path.
When the hit's stored path equals the `path` argument (compared raw,
line 570) the existing node is returned and nothing is created; when the
walk finds nothing at all, `rkey.path` dereferences `None`.  Otherwise
derive the remaining suffix below the ancestor (or below the main key
when the ancestor is the main key itself). -/
def key_for_path (C : Ctx K) (w : HDW) (path : Str) (name : Str) (account_id : Nat)
    (change : Nat) (disable_check : Bool) (s : Store) : Res (Nat × K) :=
  match (if disable_check then Except.ok () else key_for_path_checks C w path) with
  | .error e => .err e s
  | .ok _ =>
    let name := if name = [] then w.name else name
    match normalize_path path with
    | .error e => .err e s
    | .ok spath =>
      match walkUp s w.wallet_id (splitSlash spath) with
      | none => .err .attrError s
      | some rk =>
        if rk.path = path then
          match wallet_key_by_id s rk.id with
          | .error e => .err e s
          | .ok row => .ok (row.id, C.from_wif row.key_wif) s
        else
          match getKeyById s w.main_key_id with
          | none => .err (.keyIdNotFound w.main_key_id) s
          | some mainRow =>
            let subpath := replaceStr spath (rk.path ++ ['/']) []
            let basepath := rk.path
            match (if mainRow.key_wif ≠ rk.key_wif
                   then wallet_key_by_id s rk.id
                   else .ok mainRow) with
            | .error e => .err e s
            | .ok prow =>
              create_keys_from_path C prow.id (C.from_wif prow.key_wif)
                (splitSlash subpath) w.wallet_id account_id w.network_name
                name basepath change w.purpose s

/-! ## Wallet deletion -/

/-- The wallet argument of `delete_wallet`: a numeric id
(`isinstance(wallet, int) or wallet.isdigit()`) or a name string. -/
inductive WalletTerm where
  | byId (id : Nat)
  | byName (name : Str)
deriving Repr, DecidableEq

/-- Modelled from the spec: when a wallet row and its key rows are
deleted, the ledger (UTXO) rows owned by those keys are removed with
them — "deletion cascades and removes all owned key and ledger rows"
(spec, sections 3 and 8).  The cascade itself lives in the database
schema (`bitcoinlib/db.py`), which is not part of the source file under
verification. -/
def cascade_ledger (transactions : List DbTransactionRow) (deleted : List DbKeyRow) :
    List DbTransactionRow :=
  transactions.filter (fun t => !(deleted.any (fun k => k.id == t.key_id)))

/-- `delete_wallet` (`wallets.py:81-110`): locate the wallet (error when
absent), scan its keys — without `force`, the first key with a nonzero
cached balance aborts the whole operation before anything is deleted —
then delete the key rows and the wallet row, returning the deleted
wallet row count; the ledger rows of the deleted keys go with them (see
`cascade_ledger`). -/
def delete_wallet (term : WalletTerm) (force : Bool) (s : Store) : Res Nat :=
  let wq : List DbWalletRow := match term with
    | .byId i => s.wallets.filter (fun x => x.id == i)
    | .byName n => s.wallets.filter (fun x => x.name == n)
  match wq.head? with
  | none => .err .walletNotFound s
  | some w =>
    let ks := s.keys.filter (fun k => k.wallet_id == w.id)
    match (if force then (none : Option DbKeyRow)
           else ks.find? (fun k => k.balance != 0)) with
    | some k => .err (.keyHasBalance k.id) s
    | none =>
      .ok wq.length
        { s with
          wallets := s.wallets.filter (fun (x : DbWalletRow) =>
            match term with
            | .byId i => x.id != i
            | .byName n => x.name != n),
          keys := s.keys.filter (fun (k : DbKeyRow) => k.wallet_id != w.id),
          transactions := cascade_ledger s.transactions ks }

/-! ## Coin selection -/

/-- Total value of a selection. -/
def sumValues (l : List DbTransactionRow) : Nat :=
  (l.map (·.value)).sum

/-- The accumulation loop of `_select_inputs` (`wallets.py:731-736`):
walk the candidates in the given order, appending (and adding to the
running total) exactly while the total is still below the target. -/
def greedyAccum (amount : Nat) : Nat → List DbTransactionRow → List DbTransactionRow
  | _, [] => []
  | total, u :: rest =>
    if total < amount then u :: greedyAccum amount (total + u.value) rest
    else greedyAccum amount total rest

/-- `HDWallet._select_inputs` (`wallets.py:717-739`).  `utxo_query` is
`None` by default and a SQLAlchemy query object is always truthy, so the
early `return []` fires exactly when the argument is `None` (an empty
result set still proceeds).  Then: the cheapest single unspent output
covering `amount` alone, if any; otherwise the unspent outputs below
`amount` in descending value order, greedily accumulated, returned only
when they reach `amount`. -/
def select_inputs (amount : Nat) (utxo_query : Option (List DbTransactionRow)) :
    List DbTransactionRow :=
  match utxo_query with
  | none => []
  | some q =>
    match (orderByAsc (fun t => t.value)
        (q.filter (fun t => !t.spend && decide (amount ≤ t.value)))).head? with
    | some u => [u]
    | none =>
      let lessers := orderByDesc (fun t => t.value)
        (q.filter (fun t => !t.spend && decide (t.value < amount)))
      let selected := greedyAccum amount 0 lessers
      if sumValues selected < amount then [] else selected

/-! ## Transaction assembly -/

/-- The input-attachment loop of `create_transaction`
(`wallets.py:779-785`): for every selected input, fetch its owning key
row by id (`scalar()`; `HDKey(None)` would die on a missing row),
rebuild the key material from its wif, attach the input to the draft
(the codec hands back sequential input ids) and retain the private bytes
for signing. -/
def addInputs (C : Ctx K) (keys : List DbKeyRow) :
    List (Str × Nat × Nat) → TxDraft → List (Str × Nat) →
    Except WErr (TxDraft × List (Str × Nat))
  | [], t, sign_arr => .ok (t, sign_arr)
  | inp :: rest, t, sign_arr =>
    match scalar (keys.filter (fun r => r.id == inp.2.2)) with
    | .error e => .error e
    | .ok none => .error .attrError
    | .ok (some row) =>
      let k := C.from_wif row.key_wif
      let inputId := t.inputs.length
      let t := { t with inputs := t.inputs ++ [(inp.1, inp.2.1, C.public_byte k)] }
      addInputs C keys rest t (sign_arr ++ [(C.private_byte k, inputId)])

/-- `HDWallet.create_transaction` (`wallets.py:741-800`).  The `join`
and `filter` calls on lines 752-753 build new queries that are never
assigned back to `qr`, so the UTXO scope is the whole unfiltered
`DbTransaction` table — no account, spend or confirmation restriction —
and both the emptiness test (line 755, returning `None`, not an error)
and the input selection run against it.  `min_confirms` and
`account_id` consequently only influence the change key.  A
caller-supplied `input_arr` is rejected as unimplemented. -/
def create_transaction (C : Ctx K) (w : HDW) (output_arr : List (Str × Nat))
    (input_arr : Option (List (Str × Nat × Nat))) (account_id : Option Nat)
    (fee : Option Nat) (_min_confirms : Nat) (s : Store) : Res (Option TxDraft) :=
  let amount_total_output := (output_arr.map (·.2)).sum
  let t : TxDraft := { network_name := w.network_name,
                       outputs := output_arr.map (fun o => (o.2, o.1)),
                       inputs := [], signatures := [] }
  let account_id := account_id.getD w.default_account_id
  let qr := s.transactions
  let utxos := qr
  if utxos = [] then .ok none s
  else
    let fee := fee.getD 30000
    match input_arr with
    | some _ => .err .notImplemented s
    | none =>
      let selected := select_inputs (amount_total_output + fee) (some qr)
      if selected = [] then .err .insufficientFunds s
      else
        let amount_total_input := sumValues selected
        let inputTriples := selected.map (fun u => (u.tx_hash, u.output_n, u.key_id))
        let amount_change := amount_total_input - (amount_total_output + fee)
        match addInputs C s.keys inputTriples t [] with
        | .error e => .err e s
        | .ok (t, sign_arr) =>
          let afterChange : Res TxDraft :=
            if amount_change ≠ 0 then
              match new_key_change C w "Change".data account_id s with
              | .err e s' => .err e s'
              | .ok (ckId, _) s' =>
                match getKeyById s' ckId with
                | none => .err (.keyIdNotFound ckId) s'
                | some ck =>
                  .ok { t with outputs := t.outputs ++ [(amount_change, ck.address)] } s'
            else .ok t s
          match afterChange with
          | .err e s' => .err e s'
          | .ok t s' =>
            let t := { t with signatures := t.signatures ++ sign_arr }
            if C.tx_verify t then .ok (some t) s'
            else .err .verifyFailed s'

/-! ## Ledger synchronization -/

/-- One UTXO as reported by the external `Service.getutxos`. -/
structure SvcUtxo where
  address : Str
  tx_hash : Str
  confirmations : Nat
  output_n : Nat
  index : Nat
  value : Nat
  script : Str
deriving Repr, DecidableEq

/-- The per-key balance dictionary of `updateutxos`, an insertion-ordered
association list: add to the entry when present, append otherwise
(`wallets.py:666-669`). -/
def balAdd (b : List (Nat × Nat)) (kid v : Nat) : List (Nat × Nat) :=
  if b.any (fun p => p.1 == kid) then
    b.map (fun p => if p.1 == kid then (p.1, p.2 + v) else p)
  else b ++ [(kid, v)]

/-- The import loop of `updateutxos` (`wallets.py:664-679`): find the
owning key by address (`scalar()`; a missing key makes `key.id` raise),
add the value to the per-key balance dictionary, then skip the record
entirely when any stored ledger row already has the same transaction
hash — the output index is not compared — and insert it otherwise.  The
loop runs before the final commit, so an exception discards its
inserts. -/
def importLoop : Store → List (Nat × Nat) → Nat → List SvcUtxo →
    Except WErr (Store × List (Nat × Nat) × Nat)
  | s, balances, count, [] => .ok (s, balances, count)
  | s, balances, count, u :: rest =>
    match scalar (s.keys.filter (fun r => r.address == u.address)) with
    | .error e => .error e
    | .ok none => .error .attrError
    | .ok (some key) =>
      let balances := balAdd balances key.id u.value
      if s.transactions.any (fun t => t.tx_hash == u.tx_hash) then
        importLoop s balances count rest
      else
        let nt : DbTransactionRow := {
          id := s.next_tx_id, key_id := key.id, tx_hash := u.tx_hash,
          confirmations := u.confirmations, output_n := u.output_n, index := u.index,
          value := u.value, script := u.script, spend := false }
        importLoop { s with transactions := s.transactions ++ [nt],
                            next_tx_id := s.next_tx_id + 1 }
          balances (count + 1) rest

/-- The balance write-back loop of `updateutxos` (`wallets.py:681-685`):
for each dictionary entry, fetch the key row by id and overwrite its
cached balance, accumulating the wallet total. -/
def applyBalances : List (Nat × Nat) → List DbKeyRow →
    Except WErr (List DbKeyRow × Nat)
  | [], keys => .ok (keys, 0)
  | (kid, v) :: rest, keys =>
    match scalar (keys.filter (fun r => r.id == kid)) with
    | .error e => .error e
    | .ok none => .error .attrError
    | .ok (some _) =>
      let keys := keys.map (fun r => if r.id == kid then { r with balance := v } else r)
      match applyBalances rest keys with
      | .error e => .error e
      | .ok (ks, tot) => .ok (ks, v + tot)

/-- `HDWallet.updateutxos` (`wallets.py:650-691`).  The stale-record
prune on lines 653-657 filters on `DbTransaction.spend is False` — a
Python identity comparison of a column object with `False`, i.e. the
constant `False` — so its query matches no rows and nothing is deleted
(the `key_id` filter on line 656 is not assigned back either); the
deletion is then committed.  The service's UTXOs (`svc`, the external
input) are imported by `importLoop`, the per-key balances written back,
and the wallet balance set to their total; an exception between the two
commits leaves the store as it was after the (empty) prune. -/
def updateutxos (w : HDW) (_account_id : Option Nat) (_key_id : Option Nat)
    (svc : List SvcUtxo) (s : Store) : Res Unit :=
  let s1 : Store := { s with transactions := s.transactions.filter (fun _t => true) }
  match importLoop s1 [] 0 svc with
  | .error e => .err e s1
  | .ok (s2, balances, _count) =>
    match applyBalances balances s2.keys with
    | .error e => .err e s1
    | .ok (keys2, total) =>
      .ok ()
        { s2 with
          keys := keys2,
          wallets := s2.wallets.map (fun x =>
            if x.id == w.wallet_id then { x with balance := total } else x) }

/-! ## A concrete key-derivation context for evaluation

Witnesses and counterexamples need a computable instance of the external
capabilities.  A demo key is identified by its derivation segments from
the master; serialization tags them, so serialization is injective and
child derivation appends a segment — the algebra `wallets.py` relies
on. -/

structure DemoKey where
  segs : List Str
deriving Repr, DecidableEq

/-- The concrete capability record used by witnesses. -/
def demoCtx : Ctx DemoKey where
  extended_wif k := "wif:".data ++ joinSlash k.segs
  key_hex k := "hex:".data ++ joinSlash k.segs
  depth k := k.segs.length - 1
  child_index k := 0
  address k := "addr:".data ++ joinSlash k.segs
  key_type k := "bip32".data
  public_byte k := "pub:".data ++ joinSlash k.segs
  private_byte k := "prv:".data ++ joinSlash k.segs
  subkey_for_path k seg := ⟨k.segs ++ [seg]⟩
  from_wif s := ⟨splitSlash (s.drop 4)⟩
  bip44_cointype n := if n = "bitcoin".data then 0 else 1
  tx_verify _ := true

/-- Demo wif serialization of a derivation segment list. -/
def dwif (segs : List Str) : Str := "wif:".data ++ joinSlash segs

/-- A demo key row whose stored material agrees with `demoCtx` for the
given derivation segments. -/
def demoRow (id wallet_id : Nat) (segs : List Str) (purpose account_id depth change
    parent_id : Nat) (path : Str) (balance : Nat) : DbKeyRow :=
  { id := id, wallet_id := wallet_id, name := "k".data,
    key_hex := "hex:".data ++ joinSlash segs, purpose := purpose,
    account_id := account_id, depth := depth, change := change,
    address_index := 0, key_wif := dwif segs,
    address := "addr:".data ++ joinSlash segs, parent_id := parent_id,
    is_private := true, path := path, key_type := "bip32".data,
    balance := balance }

/-- A demo unspent ledger row of the given value. -/
def demoUtxo (id : Nat) (v : Nat) : DbTransactionRow :=
  { id := id, key_id := 1, tx_hash := "tx".data ++ natStr id, confirmations := 10,
    output_n := 0, index := 0, value := v, script := [], spend := false }

/-! ## Path algebra: facts about `splitSlash`, `joinSlash` and
`normalize_path` -/

theorem splitOnP_pieces {α : Type} (p : α → Bool) (l : List α) :
    ∀ piece ∈ l.splitOnP p, ∀ a ∈ piece, ¬ p a := by
  induction l with
  | nil =>
    intro piece hp a ha
    rw [List.splitOnP_nil] at hp
    simp only [List.mem_singleton] at hp
    subst hp
    exact absurd ha (List.not_mem_nil a)
  | cons x xs ih =>
    intro piece hp a ha
    rw [List.splitOnP_cons] at hp
    by_cases hx : p x
    · rw [if_pos hx] at hp
      rcases List.mem_cons.mp hp with hp | hp
      · subst hp; exact absurd ha (List.not_mem_nil a)
      · exact ih piece hp a ha
    · rw [if_neg hx] at hp
      rcases hsp : xs.splitOnP p with _ | ⟨h0, t⟩
      · exact absurd hsp (List.splitOnP_ne_nil p xs)
      · rw [hsp] at hp
        simp only [List.modifyHead_cons] at hp
        rcases List.mem_cons.mp hp with hp | hp
        · subst hp
          rcases List.mem_cons.mp ha with ha | ha
          · subst ha; exact hx
          · exact ih h0 (by rw [hsp]; exact List.mem_cons_self h0 t) a ha
        · exact ih piece (by rw [hsp]; exact List.mem_cons_of_mem h0 hp) a ha

theorem splitSlash_slash_not_mem (s : Str) :
    ∀ piece ∈ splitSlash s, '/' ∉ piece := by
  intro piece hp hmem
  have := splitOnP_pieces (fun c : Char => c == '/') s piece hp '/' hmem
  simp at this

theorem splitSlash_ne_nil (s : Str) : splitSlash s ≠ [] :=
  List.splitOnP_ne_nil _ s

theorem normLevel_ne_nil {l : Str} (h : l ≠ []) : normLevel l ≠ [] := by
  rcases hg : l.getLast? with _ | c
  · simpa only [normLevel, hg] using h
  · simp only [normLevel, hg]
    by_cases hc : c ∈ markers
    · rw [if_pos hc]; simp
    · rw [if_neg hc]; exact h

theorem normLevel_slash_not_mem {l : Str} (h : '/' ∉ l) : '/' ∉ normLevel l := by
  rcases hg : l.getLast? with _ | c
  · simpa only [normLevel, hg] using h
  · simp only [normLevel, hg]
    by_cases hc : c ∈ markers
    · rw [if_pos hc]
      intro hmem
      rcases List.mem_append.mp hmem with hm | hm
      · exact h (List.dropLast_subset l hm)
      · simp at hm
    · rw [if_neg hc]; exact h

theorem normLevel_idem (l : Str) : normLevel (normLevel l) = normLevel l := by
  rcases hg : l.getLast? with _ | c
  · simp only [normLevel, hg]
  · by_cases hc : c ∈ markers
    · have h1 : normLevel l = l.dropLast ++ ['\''] := by
        simp only [normLevel, hg]
        rw [if_pos hc]
      rw [h1]
      have hm : '\'' ∈ markers := by simp [markers]
      simp only [normLevel, List.getLast?_concat]
      rw [if_pos hm, List.dropLast_concat]
    · have h1 : normLevel l = l := by
        simp only [normLevel, hg]
        rw [if_neg hc]
      rw [h1, h1]

theorem normalizeLevels_ok {L M : List Str} (h : normalizeLevels L = .ok M) :
    M = L.map normLevel ∧ ∀ l ∈ L, l ≠ [] := by
  induction L generalizing M with
  | nil =>
    unfold normalizeLevels at h
    cases h
    exact ⟨rfl, by simp⟩
  | cons a as ih =>
    unfold normalizeLevels at h
    by_cases ha : a = []
    · rw [if_pos ha] at h; cases h
    · rw [if_neg ha] at h
      cases hr : normalizeLevels as with
      | error e => rw [hr] at h; cases h
      | ok r =>
        rw [hr] at h
        cases h
        obtain ⟨hm, hne⟩ := ih hr
        subst hm
        refine ⟨rfl, ?_⟩
        intro l hl
        rcases List.mem_cons.mp hl with hl | hl
        · subst hl; exact ha
        · exact hne l hl

theorem normalizeLevels_of_nonempty {L : List Str} (h : ∀ l ∈ L, l ≠ []) :
    normalizeLevels L = .ok (L.map normLevel) := by
  induction L with
  | nil => rfl
  | cons a as ih =>
    unfold normalizeLevels
    rw [if_neg (h a (List.mem_cons_self a as))]
    rw [ih (fun l hl => h l (List.mem_cons_of_mem a hl))]
    rfl

theorem flatten_map_concat_slash {L : List Str} (h : L ≠ []) :
    (L.map (· ++ ['/'])).flatten = joinSlash L ++ ['/'] := by
  induction L with
  | nil => exact absurd rfl h
  | cons a as ih =>
    cases as with
    | nil => simp [joinSlash, List.intercalate]
    | cons b t =>
      have hne : b :: t ≠ [] := by simp
      have h2 := ih hne
      have h3 : joinSlash (a :: b :: t) = a ++ ['/'] ++ joinSlash (b :: t) := by
        simp [joinSlash, List.intercalate, List.intersperse]
      rw [List.map_cons, List.flatten_cons, h2, h3]
      simp [List.append_assoc]

theorem normalize_path_eq_join {p q : Str} (h : normalize_path p = .ok q) :
    q = joinSlash ((splitSlash p).map normLevel)
    ∧ ∀ l ∈ splitSlash p, l ≠ [] := by
  unfold normalize_path at h
  cases hn : normalizeLevels (splitSlash p) with
  | error e => rw [hn] at h; cases h
  | ok M =>
    simp only [hn] at h
    obtain ⟨hm, hne⟩ := normalizeLevels_ok hn
    subst hm
    have hMne : (splitSlash p).map normLevel ≠ [] := by
      simp [splitSlash_ne_nil p]
    rw [flatten_map_concat_slash hMne, List.getLast?_concat, if_pos rfl,
      List.dropLast_concat] at h
    cases h
    exact ⟨rfl, hne⟩

/-- C9 helper: the output segments of one `normalize_path` pass are
non-empty, slash-free and fixed points of the per-segment rewrite. -/
theorem normalized_segments {p q : Str} (h : normalize_path p = .ok q) :
    splitSlash q = (splitSlash p).map normLevel
    ∧ ∀ l ∈ (splitSlash p).map normLevel, l ≠ [] ∧ '/' ∉ l ∧ normLevel l = l := by
  obtain ⟨hq, hne⟩ := normalize_path_eq_join h
  have hprops : ∀ l ∈ (splitSlash p).map normLevel, l ≠ [] ∧ '/' ∉ l ∧ normLevel l = l := by
    intro l hl
    obtain ⟨x, hx, hxl⟩ := List.mem_map.mp hl
    subst hxl
    exact ⟨normLevel_ne_nil (hne x hx),
      normLevel_slash_not_mem (splitSlash_slash_not_mem p x hx),
      normLevel_idem x⟩
  constructor
  · rw [hq]
    exact List.splitOn_intercalate ((splitSlash p).map normLevel) '/'
      (fun l hl => (hprops l hl).2.1) (by simp [splitSlash_ne_nil p])
  · exact hprops

/-- C9: `normalize` is idempotent — a path that survives one
normalization pass (every `/`-separated segment non-empty) is left
unchanged, and not rejected, by a second pass. -/
theorem normalize_path_idempotent {p q : Str} (h : normalize_path p = .ok q) :
    normalize_path q = .ok q := by
  obtain ⟨hsplit, hprops⟩ := normalized_segments h
  obtain ⟨hq, _⟩ := normalize_path_eq_join h
  have hfix : ((splitSlash p).map normLevel).map normLevel = (splitSlash p).map normLevel := by
    rw [List.map_map]
    exact List.map_congr_left (fun a _ => normLevel_idem a)
  have hMne : (splitSlash p).map normLevel ≠ [] := by
    simp [splitSlash_ne_nil p]
  have hlev : normalizeLevels (splitSlash q) = .ok ((splitSlash p).map normLevel) := by
    rw [hsplit, normalizeLevels_of_nonempty (fun l hl => (hprops l hl).1), hfix]
  unfold normalize_path
  simp only [hlev]
  rw [flatten_map_concat_slash hMne, List.getLast?_concat, if_pos rfl,
    List.dropLast_concat, hq]

/-- C9 witness: a concrete valid path normalizes to a fixed point. -/
theorem normalize_path_idempotent_witness :
    normalize_path ("m/44h/1'/0p/2000/1".data) = .ok ("m/44'/1'/0'/2000/1".data)
    ∧ normalize_path ("m/44'/1'/0'/2000/1".data) = .ok ("m/44'/1'/0'/2000/1".data) := by
  have h1 : normalize_path ("m/44h/1'/0p/2000/1".data)
      = .ok ("m/44'/1'/0'/2000/1".data) := by rfl
  exact ⟨h1, normalize_path_idempotent h1⟩

/-! ## Coin selection: C1 -/

instance {α : Type} (f : α → Nat) : IsTotal α (fun a b => f a ≤ f b) :=
  ⟨fun a b => Nat.le_total (f a) (f b)⟩

instance {α : Type} (f : α → Nat) : IsTrans α (fun a b => f a ≤ f b) :=
  ⟨fun _ _ _ h1 h2 => Nat.le_trans h1 h2⟩

theorem orderByAsc_perm {α : Type} (f : α → Nat) (l : List α) :
    List.Perm (orderByAsc f l) l :=
  List.perm_insertionSort _ l

theorem orderByDesc_perm {α : Type} (f : α → Nat) (l : List α) :
    List.Perm (orderByDesc f l) l :=
  List.perm_insertionSort _ l

theorem orderByAsc_sorted {α : Type} (f : α → Nat) (l : List α) :
    (orderByAsc f l).Sorted (fun a b => f a ≤ f b) :=
  List.sorted_insertionSort _ l

theorem sumValues_perm {l l' : List DbTransactionRow} (h : List.Perm l l') :
    sumValues l = sumValues l' := by
  simpa [sumValues] using (h.map (·.value)).sum_eq

theorem sumValues_append (l l' : List DbTransactionRow) :
    sumValues (l ++ l') = sumValues l + sumValues l' := by
  simp [sumValues]

theorem sumValues_le_of_pre {r l : List DbTransactionRow} (h : r <+: l) :
    sumValues r ≤ sumValues l := by
  obtain ⟨t, rfl⟩ := h
  rw [sumValues_append]
  exact Nat.le_add_right _ _

theorem greedyAccum_of_ge {amount total : Nat} (l : List DbTransactionRow)
    (h : amount ≤ total) : greedyAccum amount total l = [] := by
  induction l with
  | nil => rfl
  | cons u rest ih =>
    unfold greedyAccum
    rw [if_neg (Nat.not_lt.mpr h)]
    exact ih

theorem greedyAccum_isPre (amount : Nat) :
    ∀ (total : Nat) (l : List DbTransactionRow), greedyAccum amount total l <+: l := by
  intro total l
  induction l generalizing total with
  | nil => exact List.nil_prefix
  | cons u rest ih =>
    unfold greedyAccum
    by_cases h : total < amount
    · rw [if_pos h]
      obtain ⟨t, ht⟩ := ih (total + u.value)
      exact ⟨t, by rw [List.cons_append, ht]⟩
    · rw [if_neg h]
      have := greedyAccum_of_ge rest (Nat.not_lt.mp h)
      rw [this]
      exact List.nil_prefix

theorem greedyAccum_covers {amount : Nat} :
    ∀ {total : Nat} {l : List DbTransactionRow},
      total < amount → amount ≤ total + sumValues l →
      amount ≤ total + sumValues (greedyAccum amount total l)
      ∧ total + sumValues (greedyAccum amount total l).dropLast < amount := by
  intro total l
  induction l generalizing total with
  | nil =>
    intro hlt hsum
    simp [sumValues] at hsum
    omega
  | cons u rest ih =>
    intro hlt hsum
    unfold greedyAccum
    rw [if_pos hlt]
    by_cases hcov : amount ≤ total + u.value
    · rw [greedyAccum_of_ge rest hcov]
      constructor
      · simpa [sumValues] using hcov
      · simpa [sumValues] using hlt
    · have hlt' : total + u.value < amount := Nat.not_le.mp hcov
      have hsum' : amount ≤ total + u.value + sumValues rest := by
        have : sumValues (u :: rest) = u.value + sumValues rest := by simp [sumValues]
        omega
      obtain ⟨ha, hb⟩ := ih hlt' hsum'
      have hrne : greedyAccum amount (total + u.value) rest ≠ [] := by
        intro hnil
        rw [hnil] at ha
        simp [sumValues] at ha
        omega
      constructor
      · have : sumValues (u :: greedyAccum amount (total + u.value) rest)
            = u.value + sumValues (greedyAccum amount (total + u.value) rest) := by
          simp [sumValues]
        omega
      · rcases hr : greedyAccum amount (total + u.value) rest with _ | ⟨x, xs⟩
        · exact absurd hr hrne
        · rw [hr] at hb
          have hdl : (u :: x :: xs).dropLast = u :: (x :: xs).dropLast := rfl
          rw [hdl]
          have : sumValues (u :: (x :: xs).dropLast)
              = u.value + sumValues ((x :: xs).dropLast) := by simp [sumValues]
          omega

/-- C1: coin selection is deterministic and exact.  (1) When some
unspent record in scope covers the target alone, the selection is a
single record of minimal covering value.  (2) Otherwise, when the
sub-target unspent records total at least the target, the selection is
the shortest covering front segment of those records in descending value
order.  (3) When even their total falls short, the selection is empty —
`create_transaction` turns that empty selection into the
insufficient-funds failure, so the caller never sees a partial
selection. -/
theorem select_inputs_exact_and_greedy (amount : Nat) (q : List DbTransactionRow) :
    ((q.filter (fun t => !t.spend && decide (amount ≤ t.value)) ≠ []) →
      ∃ u, select_inputs amount (some q) = [u] ∧ u ∈ q ∧ u.spend = false
        ∧ amount ≤ u.value
        ∧ ∀ v ∈ q, v.spend = false → amount ≤ v.value → u.value ≤ v.value)
    ∧ ((q.filter (fun t => !t.spend && decide (amount ≤ t.value)) = []) → 0 < amount →
        amount ≤ sumValues (q.filter (fun t => !t.spend && decide (t.value < amount))) →
      ∃ r, select_inputs amount (some q) = r
        ∧ r <+: orderByDesc (fun t => t.value)
            (q.filter (fun t => !t.spend && decide (t.value < amount)))
        ∧ amount ≤ sumValues r ∧ sumValues r.dropLast < amount)
    ∧ ((q.filter (fun t => !t.spend && decide (amount ≤ t.value)) = []) →
        sumValues (q.filter (fun t => !t.spend && decide (t.value < amount))) < amount →
      select_inputs amount (some q) = []) := by
  refine ⟨?_, ?_, ?_⟩
  · intro hne
    cases hs : orderByAsc (fun t => t.value)
        (q.filter (fun t => !t.spend && decide (amount ≤ t.value))) with
    | nil =>
      exfalso
      have hperm := orderByAsc_perm (fun t => t.value)
        (q.filter (fun t => !t.spend && decide (amount ≤ t.value)))
      rw [hs] at hperm
      exact hne hperm.symm.eq_nil
    | cons u t =>
      have hperm := orderByAsc_perm (fun t => t.value)
        (q.filter (fun t => !t.spend && decide (amount ≤ t.value)))
      rw [hs] at hperm
      have hsor := orderByAsc_sorted (fun t => t.value)
        (q.filter (fun t => !t.spend && decide (amount ≤ t.value)))
      rw [hs] at hsor
      have humem := hperm.subset (List.mem_cons_self u t)
      have hufil := List.mem_filter.mp humem
      have hprops : u.spend = false ∧ amount ≤ u.value := by
        have := hufil.2
        simp only [Bool.and_eq_true, Bool.not_eq_true', decide_eq_true_eq] at this
        exact this
      refine ⟨u, ?_, hufil.1, hprops.1, hprops.2, ?_⟩
      · simp only [select_inputs, hs, List.head?_cons]
      · intro v hv hvs hva
        have hvfil : v ∈ q.filter (fun t => !t.spend && decide (amount ≤ t.value)) := by
          refine List.mem_filter.mpr ⟨hv, ?_⟩
          simp [hvs, hva]
        have hvmem := hperm.mem_iff.mpr hvfil
        rcases List.mem_cons.mp hvmem with hvu | hvt
        · rw [hvu]
        · exact List.rel_of_sorted_cons hsor v hvt
  · intro h1 h0 h2
    have hLperm := orderByDesc_perm (fun t => t.value)
      (q.filter (fun t => !t.spend && decide (t.value < amount)))
    have hLsum : sumValues (orderByDesc (fun t => t.value)
        (q.filter (fun t => !t.spend && decide (t.value < amount))))
        = sumValues (q.filter (fun t => !t.spend && decide (t.value < amount))) :=
      sumValues_perm hLperm
    have hsum : amount ≤ 0 + sumValues (orderByDesc (fun t => t.value)
        (q.filter (fun t => !t.spend && decide (t.value < amount)))) := by
      rw [Nat.zero_add, hLsum]; exact h2
    obtain ⟨ha, hb⟩ := greedyAccum_covers h0 hsum
    rw [Nat.zero_add] at ha
    rw [Nat.zero_add] at hb
    refine ⟨greedyAccum amount 0 (orderByDesc (fun t => t.value)
      (q.filter (fun t => !t.spend && decide (t.value < amount)))), ?_,
      greedyAccum_isPre amount 0 _, ha, hb⟩
    simp only [select_inputs, h1, orderByAsc, List.insertionSort, List.head?_nil]
    rw [if_neg (Nat.not_lt.mpr ha)]
  · intro h1 h2
    have hle := sumValues_le_of_pre (greedyAccum_isPre amount 0
      (orderByDesc (fun t => t.value)
        (q.filter (fun t => !t.spend && decide (t.value < amount)))))
    have hLsum : sumValues (orderByDesc (fun t => t.value)
        (q.filter (fun t => !t.spend && decide (t.value < amount))))
        = sumValues (q.filter (fun t => !t.spend && decide (t.value < amount))) :=
      sumValues_perm (orderByDesc_perm _ _)
    simp only [select_inputs, h1, orderByAsc, List.insertionSort, List.head?_nil]
    rw [if_pos (by omega)]

/-- C1 witness: the spec's own examples — values 3, 5, 12 against target
10 select exactly the 12; values 3, 5, 4 against target 10 fall into the
greedy branch; values 3, 5 against target 10 select nothing. -/
theorem select_inputs_exact_and_greedy_witness :
    (∃ u, select_inputs 10 (some [demoUtxo 1 3, demoUtxo 2 5, demoUtxo 3 12]) = [u]
      ∧ u ∈ [demoUtxo 1 3, demoUtxo 2 5, demoUtxo 3 12] ∧ u.spend = false
      ∧ 10 ≤ u.value
      ∧ ∀ v ∈ [demoUtxo 1 3, demoUtxo 2 5, demoUtxo 3 12],
          v.spend = false → 10 ≤ v.value → u.value ≤ v.value)
    ∧ (∃ r, select_inputs 10 (some [demoUtxo 1 3, demoUtxo 2 5, demoUtxo 4 4]) = r
        ∧ r <+: orderByDesc (fun t => t.value)
            ([demoUtxo 1 3, demoUtxo 2 5, demoUtxo 4 4].filter
              (fun t => !t.spend && decide (t.value < 10)))
        ∧ 10 ≤ sumValues r ∧ sumValues r.dropLast < 10)
    ∧ select_inputs 10 (some [demoUtxo 1 3, demoUtxo 2 5]) = [] :=
  ⟨(select_inputs_exact_and_greedy 10 [demoUtxo 1 3, demoUtxo 2 5, demoUtxo 3 12]).1
      (by decide),
   (select_inputs_exact_and_greedy 10 [demoUtxo 1 3, demoUtxo 2 5, demoUtxo 4 4]).2.1
      (by decide) (by decide) (by decide),
   (select_inputs_exact_and_greedy 10 [demoUtxo 1 3, demoUtxo 2 5]).2.2
      (by decide) (by decide)⟩

/-! ## Key derivation idempotence: C2 -/

/-- A demo wallet session over wallet 1 of `demoStore1`. -/
def wDemo : HDW :=
  { wallet_id := 1, name := "w1".data, purpose := 44,
    network_name := "testnet".data, main_key_id := 1, default_account_id := 0 }

/-- A demo store: wallet 1 with its master key, purpose and cointype
nodes, and the account-0 node, all consistent with `demoCtx`. -/
def demoStore1 : Store :=
  { wallets := [{ id := 1, name := "w1".data, owner := [],
                  network_name := "testnet".data, purpose := 44,
                  main_key_id := 1, balance := 0 }],
    keys := [
      demoRow 1 1 [['m']] 44 0 0 0 0 "m".data 0,
      demoRow 2 1 [['m'], "44'".data] 44 0 1 0 1 "m/44'".data 0,
      demoRow 3 1 [['m'], "44'".data, "1'".data] 44 0 2 0 2 "m/44'/1'".data 0,
      demoRow 4 1 [['m'], "44'".data, "1'".data, "0'".data] 44 0 3 0 3
        "m/44'/1'/0'".data 0 ],
    transactions := [], next_key_id := 5, next_tx_id := 1 }

/-- C2 (amended): key derivation is idempotent for canonically-spelled
paths.  (1) `key_for_path` on a path whose node already exists in the
wallet, the path being given in normal form (the form under which every
node is stored), returns that node's id and leaves the store untouched —
deriving the same canonical path twice yields the same id and no second
row.  (2) `from_key` with key material whose serialization is already
stored returns the existing row's id and inserts nothing, so
re-importing or re-deriving existing material yields the existing node.
The normal-form hypothesis is essential: the early return at
`wallets.py:570` compares the stored path to the raw argument, so a
valid non-canonical spelling (markers `H`, `h`, `P`, `p`) misses the
existing node and re-derives — see the counterexample below. -/
theorem key_derivation_idempotent {K : Type} (C : Ctx K) (w : HDW) (s : Store) :
    (∀ (path name : Str) (account_id change : Nat) (disable_check : Bool) (r : DbKeyRow),
      (disable_check = true ∨ key_for_path_checks C w path = .ok ()) →
      normalize_path path = .ok path →
      s.keys.find? (fun x => x.wallet_id == w.wallet_id && x.path == path) = some r →
      s.keys.filter (fun x => x.id == r.id) = [r] →
      key_for_path C w path name account_id change disable_check s
        = .ok (r.id, C.from_wif r.key_wif) s)
    ∧ (∀ (name network path : Str) (wallet_id account_id change purpose parent_id : Nat)
        (k : K) (r : DbKeyRow),
      s.keys.find? (fun x => x.key_wif == C.extended_wif k) = some r →
      from_key C name wallet_id k account_id network change purpose parent_id path s
        = .ok r.id s) := by
  constructor
  · intro path name account_id change disable_check r hdc hnorm hfind hid
    have hchk : (if disable_check then Except.ok ()
        else key_for_path_checks C w path) = .ok () := by
      rcases hdc with hdc | hdc
      · subst hdc; rfl
      · cases disable_check
        · simpa using hdc
        · rfl
    have hpne : path ≠ [] := by
      intro hp
      subst hp
      simp [normalize_path, splitSlash, normalizeLevels] at hnorm
    have hjoin : joinSlash (splitSlash path) = path := by
      simpa [joinSlash, splitSlash] using List.intercalate_splitOn path '/'
    have hrpath : r.path = path := by
      have := List.find?_some hfind
      simp only [Bool.and_eq_true, beq_iff_eq] at this
      exact this.2
    have hwalk : walkUp s w.wallet_id (splitSlash path) = some r := by
      cases hsp : splitSlash path with
      | nil => exact absurd hsp (splitSlash_ne_nil path)
      | cons seg rest =>
        rw [hsp] at hjoin
        simp only [walkUp, List.length_cons, walkUpFuel]
        rw [hjoin, if_neg hpne, hfind]
    have hwk : wallet_key_by_id s r.id = .ok r := by
      unfold wallet_key_by_id
      rw [hid]
      rfl
    simp only [key_for_path, hchk, hnorm, hwalk, if_pos hrpath, hwk]
  · intro name network path wallet_id account_id change purpose parent_id k r hfind
    simp only [from_key, hfind]

/-- C2 witness: in `demoStore1`, `key_for_path` on the existing account
path (strict checks enabled and passing) returns node 4 with the store
unchanged, and `from_key` with the account node's material returns id 4
with the store unchanged. -/
theorem key_derivation_idempotent_witness :
    key_for_path demoCtx wDemo ("m/44'/1'/0'".data) [] 0 0 false demoStore1
      = .ok (4, demoCtx.from_wif (dwif [['m'], "44'".data, "1'".data, "0'".data]))
          demoStore1
    ∧ from_key demoCtx "x".data 1 (⟨[['m'], "44'".data, "1'".data, "0'".data]⟩ : DemoKey)
        0 ("testnet".data) 0 44 0 "m".data demoStore1 = .ok 4 demoStore1 := by
  have h := key_derivation_idempotent demoCtx wDemo demoStore1
  constructor
  · have := h.1 ("m/44'/1'/0'".data) [] 0 0 false
      (demoRow 4 1 [['m'], "44'".data, "1'".data, "0'".data] 44 0 3 0 3
        "m/44'/1'/0'".data 0)
      (Or.inr (by rfl)) (by rfl) (by decide) (by decide)
    simpa [demoRow, dwif] using this
  · have := h.2 ("x".data) ("testnet".data) ("m".data) 1 0 0 44 0
      (⟨[['m'], "44'".data, "1'".data, "0'".data]⟩ : DemoKey)
      (demoRow 4 1 [['m'], "44'".data, "1'".data, "0'".data] 44 0 3 0 3
        "m/44'/1'/0'".data 0)
      (by decide)
    simpa [demoRow] using this

/-- The node id of a `key_for_path` result, when it succeeded. -/
def resultId {K : Type} : Res (Nat × K) → Option Nat
  | .ok (i, _) _ => some i
  | .err _ _ => none

/-- The store a stateful operation left behind. -/
def resultStore {α : Type} : Res α → Store
  | .ok _ s => s
  | .err _ s => s

/-- C2 counterexample: derivation is not idempotent on the valid
marker-variant spellings.  The path `m/44h/1'/0'` passes the strict
checks and normalizes to `m/44'/1'/0'`, whose node is already stored in
`demoStore1`; but the early return at `wallets.py:570` compares the
stored path to the raw argument, so `key_for_path` misses the node and
re-derives a suffix below it: the first call returns the fresh id 8 and
grows the store from 4 to 8 key rows, and a second call with the very
same path string returns id 16 and grows it to 16 rows — the same path
derived twice yields two different ids and inserts rows both times. -/
theorem key_derivation_variant_not_idempotent :
    key_for_path_checks demoCtx wDemo ("m/44h/1'/0'".data) = .ok ()
    ∧ normalize_path ("m/44h/1'/0'".data) = .ok ("m/44'/1'/0'".data)
    ∧ (demoStore1.keys.filter
        (fun x => x.wallet_id == 1 && x.path == ("m/44'/1'/0'".data))).length = 1
    ∧ resultId (key_for_path demoCtx wDemo ("m/44h/1'/0'".data) [] 0 0 false demoStore1)
        = some 8
    ∧ (resultStore (key_for_path demoCtx wDemo ("m/44h/1'/0'".data) [] 0 0 false
        demoStore1)).keys.length = 8
    ∧ resultId (key_for_path demoCtx wDemo ("m/44h/1'/0'".data) [] 0 0 false
        (resultStore (key_for_path demoCtx wDemo ("m/44h/1'/0'".data) [] 0 0 false
          demoStore1))) = some 16
    ∧ (resultStore (key_for_path demoCtx wDemo ("m/44h/1'/0'".data) [] 0 0 false
        (resultStore (key_for_path demoCtx wDemo ("m/44h/1'/0'".data) [] 0 0 false
          demoStore1)))).keys.length = 16 :=
  ⟨rfl, rfl, rfl, rfl, rfl, rfl, rfl⟩

/-! ## Account creation: C3 and C4 -/

/-- C3: the `AccountExists` guard of `new_account` is dead code.
Whenever `HDWallet.keys` is given an `account_id` it also filters on
`depth > 3`, so the guard query `keys(account_id=..., depth=3)` demands
`depth > 3 ∧ depth = 3` and is empty on every store — `new_account` with
an already-existing account id therefore proceeds (second conjunct: on a
store whose account 0 exists at depth 3 it returns a non-error result)
instead of failing with `AccountExists`. -/
theorem new_account_existing_id_not_rejected :
    (∀ (s : Store) (w : HDW) (aid : Nat),
      wallet_keys s w (some aid) none none none (some 3) = [])
    ∧ ∃ a s', new_account demoCtx wDemo [] (some 0) demoStore1 = Res.ok a s' := by
  constructor
  · intro s w aid
    unfold wallet_keys
    rw [List.filter_eq_nil_iff]
    intro r _ hr
    simp [Bool.and_eq_true] at hr
    omega
  · exact ⟨_, _, rfl⟩

/-- A store with no rows at all. -/
def emptyStore : Store :=
  { wallets := [], keys := [], transactions := [], next_key_id := 1, next_tx_id := 1 }

/-- C4 counterexample: on a store with no keys, `new_account` with the
account id omitted does not assign id 0 — the `.first()` result is
`None` and `None.account_id` raises `AttributeError`
(`wallets.py:512-515`). -/
theorem new_account_empty_scope_crashes :
    new_account demoCtx wDemo [] none emptyStore = Res.err WErr.attrError emptyStore
    ∧ next_account_id emptyStore wDemo = Except.error WErr.attrError :=
  ⟨rfl, rfl⟩

instance {α : Type} (f : α → Nat) : IsTotal α (fun a b => f b ≤ f a) :=
  ⟨fun a b => (Nat.le_total (f b) (f a))⟩

instance {α : Type} (f : α → Nat) : IsTrans α (fun a b => f b ≤ f a) :=
  ⟨fun _ _ _ h1 h2 => Nat.le_trans h2 h1⟩

theorem orderByDesc_sorted {α : Type} (f : α → Nat) (l : List α) :
    (orderByDesc f l).Sorted (fun a b => f b ≤ f a) :=
  List.sorted_insertionSort _ l

/-- C4 (amended): when the wallet/purpose scope holds at least one key
row — which is the case for every wallet the module itself creates, as
wallet creation registers the main key — the omitted-id branch of
`new_account` assigns one more than the maximum existing account id, an
id strictly greater than every account id in the scope, so successive
omitted-id calls assign strictly increasing, never-reused ids; on an
empty scope it raises instead of assigning 0. -/
theorem next_account_id_max_plus_one (s : Store) (w : HDW)
    (hne : s.keys.filter
      (fun r => r.wallet_id == w.wallet_id && r.purpose == w.purpose) ≠ []) :
    ∃ m, next_account_id s w = .ok (m + 1)
      ∧ (∀ r ∈ s.keys.filter
            (fun r => r.wallet_id == w.wallet_id && r.purpose == w.purpose),
          r.account_id ≤ m)
      ∧ (∃ r ∈ s.keys.filter
            (fun r => r.wallet_id == w.wallet_id && r.purpose == w.purpose),
          r.account_id = m) := by
  cases hs : orderByDesc (fun r => r.account_id)
      (s.keys.filter (fun r => r.wallet_id == w.wallet_id && r.purpose == w.purpose)) with
  | nil =>
    exfalso
    have hperm := orderByDesc_perm (fun r => r.account_id)
      (s.keys.filter (fun r => r.wallet_id == w.wallet_id && r.purpose == w.purpose))
    rw [hs] at hperm
    exact hne hperm.symm.eq_nil
  | cons x t =>
    have hperm := orderByDesc_perm (fun r => r.account_id)
      (s.keys.filter (fun r => r.wallet_id == w.wallet_id && r.purpose == w.purpose))
    rw [hs] at hperm
    have hsor := orderByDesc_sorted (fun r => r.account_id)
      (s.keys.filter (fun r => r.wallet_id == w.wallet_id && r.purpose == w.purpose))
    rw [hs] at hsor
    refine ⟨x.account_id, ?_, ?_, ?_⟩
    · simp only [next_account_id, hs, List.head?_cons]
    · intro r hr
      have := hperm.mem_iff.mpr hr
      rcases List.mem_cons.mp this with h | h
      · rw [h]
      · exact List.rel_of_sorted_cons hsor r h
    · exact ⟨x, hperm.subset (List.mem_cons_self x t), rfl⟩

/-- C4 witness: on `demoStore1` (maximum existing account id 0) the
omitted-id branch computes account id 1. -/
theorem next_account_id_max_plus_one_witness :
    ∃ m, next_account_id demoStore1 wDemo = .ok (m + 1)
      ∧ (∀ r ∈ demoStore1.keys.filter
            (fun r => r.wallet_id == wDemo.wallet_id && r.purpose == wDemo.purpose),
          r.account_id ≤ m)
      ∧ (∃ r ∈ demoStore1.keys.filter
            (fun r => r.wallet_id == wDemo.wallet_id && r.purpose == wDemo.purpose),
          r.account_id = m) :=
  next_account_id_max_plus_one demoStore1 wDemo (by decide)

/-! ## Transaction scope: C5 -/

/-- An unspent ledger row of value 100000 with 0 confirmations, owned by
key 5. -/
def outOfScopeUtxo : DbTransactionRow :=
  { id := 1, key_id := 5, tx_hash := "deadbeef".data, confirmations := 0,
    output_n := 0, index := 0, value := 100000, script := [], spend := false }

/-- `demoStore1` plus a depth-5 key of account 7 owning one unspent
output of value 100000 with 0 confirmations. -/
def demoStoreTx : Store :=
  { wallets := demoStore1.wallets,
    keys := demoStore1.keys ++
      [demoRow 5 1 [['m'], "44'".data, "1'".data, "7'".data, "0".data, "5".data]
        44 7 5 0 4 "m/44'/1'/7'/0/5".data 0],
    transactions := [outOfScopeUtxo],
    next_key_id := 6, next_tx_id := 2 }

/-- C5: `create_transaction` does not restrict its UTXO scope and does
not fail on an empty scope.  First conjunct: asked to spend from account
0 with at least 4 confirmations, it happily selects the only ledger row
— owned by account 7, with 0 confirmations — because the `join`/`filter`
results on `wallets.py:752-753` are discarded.  Second conjunct: when
the (unfiltered) ledger is empty it returns `None`
(`wallets.py:755-757`), a non-error value, instead of raising a
no-spendable-outputs error. -/
theorem create_transaction_scope_ignored :
    create_transaction demoCtx wDemo [("dest".data, 70000)] none (some 0)
        (some 30000) 4 demoStoreTx
      = Res.ok (some
          { network_name := "testnet".data,
            outputs := [(70000, "dest".data)],
            inputs := [("deadbeef".data, 0,
              "pub:m/44'/1'/7'/0/5".data)],
            signatures := [("prv:m/44'/1'/7'/0/5".data, 0)] })
          demoStoreTx
    ∧ create_transaction demoCtx wDemo [("dest".data, 70000)] none (some 0)
        (some 30000) 4 demoStore1 = Res.ok none demoStore1 :=
  ⟨rfl, rfl⟩

/-! ## Strict path validation: C6 -/

/-- A wallet session on the `bitcoin` network, whose BIP44 cointype is
0 under `demoCtx`. -/
def wBtc : HDW :=
  { wallet_id := 1, name := "b".data, purpose := 44,
    network_name := "bitcoin".data, main_key_id := 1, default_account_id := 0 }

/-- C6 counterexample: for a purpose-44 wallet on a cointype-0 network,
the strict-mode path `m/44'/0'` has no account segment — so per the
claim it should fail with `UnhardenedPath` — but the purpose and
cointype equality checks pass and the hardening check evaluates `''[-1]`
on the absent account segment, raising `IndexError`
(`wallets.py:556-558`). -/
theorem key_for_path_short_path_index_error :
    key_for_path demoCtx wBtc ("m/44'/0'".data) [] 0 0 false demoStore1
      = Res.err WErr.indexError demoStore1 := rfl

theorem key_for_path_checks_err {K : Type} (C : Ctx K) (w : HDW) (s : Store)
    (path name : Str) (account_id change : Nat) (e : WErr)
    (he : key_for_path_checks C w path = .error e) :
    key_for_path C w path name account_id change false s = Res.err e s := by
  simp only [key_for_path, Bool.false_eq_true, if_false, he]

/-- C6 (amended): in strict mode, on a path long enough to carry
purpose, cointype and account segments (each parsing to a number where
compared), `key_for_path` fails with `PurposeMismatch` when the path's
purpose differs from the wallet's, with `CointypeMismatch` when the
purpose matches but the cointype differs from the wallet network's, and
with `UnhardenedPath` when both match but any of the three segments
lacks the trailing hardening marker; in each case the store is returned
unchanged, so no key is created.  (On paths too short to carry all three
segments the hardening check instead dies with `IndexError`, see the
counterexample.) -/
theorem key_for_path_strict_checks {K : Type} (C : Ctx K) (w : HDW) (s : Store)
    (path name : Str) (account_id change : Nat) (pd : Bip44Path)
    (pu ct : Nat) (c1 c2 c3 : Char)
    (hparse : parse_bip44_path path = .ok pd)
    (hpu : pyInt (replaceStr pd.purpose ['\''] []) = .ok pu)
    (hct : pyInt (replaceStr pd.cointype ['\''] []) = .ok ct)
    (hc1 : pd.cointype.getLast? = some c1)
    (hc2 : pd.purpose.getLast? = some c2)
    (hc3 : pd.account.getLast? = some c3) :
    (pu ≠ w.purpose →
      key_for_path C w path name account_id change false s
        = Res.err (.purposeMismatch pu w.purpose) s)
    ∧ (pu = w.purpose → ct ≠ C.bip44_cointype w.network_name →
      key_for_path C w path name account_id change false s
        = Res.err (.cointypeMismatch ct (C.bip44_cointype w.network_name)) s)
    ∧ (pu = w.purpose → ct = C.bip44_cointype w.network_name →
      (c1 ≠ '\'' ∨ c2 ≠ '\'' ∨ c3 ≠ '\'') →
      key_for_path C w path name account_id change false s
        = Res.err .unhardenedPath s) := by
  have hpne : pd.purpose ≠ [] := by
    intro h; rw [h] at hc2; simp at hc2
  have hcne : pd.cointype ≠ [] := by
    intro h; rw [h] at hc1; simp at hc1
  refine ⟨?_, ?_, ?_⟩
  · intro hne
    refine key_for_path_checks_err C w s path name account_id change _ ?_
    simp only [key_for_path_checks, hparse, if_neg hpne, hpu, if_pos hne]
  · intro hpe hne
    refine key_for_path_checks_err C w s path name account_id change _ ?_
    have hnn : ¬ pu ≠ w.purpose := fun h => h hpe
    simp only [key_for_path_checks, hparse, if_neg hpne, hpu, if_neg hnn,
      if_neg hcne, hct, if_pos hne]
  · intro hpe hce hdisj
    refine key_for_path_checks_err C w s path name account_id change _ ?_
    have hnn : ¬ pu ≠ w.purpose := fun h => h hpe
    have hnc : ¬ ct ≠ C.bip44_cointype w.network_name := fun h => h hce
    have hl1 : lastCharOf pd.cointype = .ok c1 := by
      simp only [lastCharOf, hc1]
    have hl2 : lastCharOf pd.purpose = .ok c2 := by
      simp only [lastCharOf, hc2]
    have hl3 : lastCharOf pd.account = .ok c3 := by
      simp only [lastCharOf, hc3]
    by_cases hb1 : c1 = '\''
    · by_cases hb2 : c2 = '\''
      · have hb3 : c3 ≠ '\'' := by
          rcases hdisj with h | h | h
          · exact absurd hb1 h
          · exact absurd hb2 h
          · exact h
        subst hb1
        subst hb2
        simp only [key_for_path_checks, hparse, if_neg hpne, hpu, if_neg hnn,
          if_neg hcne, hct, if_neg hnc, hl1, hl2, hl3, if_pos hb3]
        simp
      · subst hb1
        simp only [key_for_path_checks, hparse, if_neg hpne, hpu, if_neg hnn,
          if_neg hcne, hct, if_neg hnc, hl1, hl2, if_pos hb2]
        simp
    · simp only [key_for_path_checks, hparse, if_neg hpne, hpu, if_neg hnn,
        if_neg hcne, hct, if_neg hnc, hl1, if_pos hb1]

/-- C6 witness: against the testnet (cointype 1) purpose-44 demo wallet,
`m/45'/1'/0'` is rejected with `PurposeMismatch`, `m/44'/9'/0'` with
`CointypeMismatch`, and `m/44'/1'/0/0/1` (unhardened account) with
`UnhardenedPath`, each leaving the store as it was. -/
theorem key_for_path_strict_checks_witness :
    key_for_path demoCtx wDemo ("m/45'/1'/0'".data) [] 0 0 false demoStore1
      = Res.err (.purposeMismatch 45 44) demoStore1
    ∧ key_for_path demoCtx wDemo ("m/44'/9'/0'".data) [] 0 0 false demoStore1
      = Res.err (.cointypeMismatch 9 1) demoStore1
    ∧ key_for_path demoCtx wDemo ("m/44'/1'/0/0/1".data) [] 0 0 false demoStore1
      = Res.err .unhardenedPath demoStore1 := by
  refine ⟨?_, ?_, ?_⟩
  · exact (key_for_path_strict_checks demoCtx wDemo demoStore1 ("m/45'/1'/0'".data)
      [] 0 0 _ 45 1 '\'' '\'' '\'' (by rfl) (by rfl) (by rfl) (by rfl) (by rfl)
      (by rfl)).1 (by decide)
  · exact (key_for_path_strict_checks demoCtx wDemo demoStore1 ("m/44'/9'/0'".data)
      [] 0 0 _ 44 9 '\'' '\'' '\'' (by rfl) (by rfl) (by rfl) (by rfl) (by rfl)
      (by rfl)).2.1 (by decide) (by decide)
  · exact (key_for_path_strict_checks demoCtx wDemo demoStore1 ("m/44'/1'/0/0/1".data)
      [] 0 0 _ 44 1 '\'' '\'' '0' (by rfl) (by rfl) (by rfl) (by rfl) (by rfl)
      (by rfl)).2.2 (by decide) (by decide) (by decide)

/-! ## Wallet deletion: C7 -/

/-- C7: deleting a wallet that owns a key with a nonzero cached balance,
without `force`, fails with the balance-blocked error and changes
nothing; with `force` it succeeds and cascades — the wallet row, every
key row of the wallet and every ledger row owned by those keys are gone,
while rows of other wallets survive. -/
theorem delete_wallet_force_and_balance (term : WalletTerm) (s : Store)
    (w : DbWalletRow)
    (hw : (match term with
           | .byId i => s.wallets.filter (fun (x : DbWalletRow) => x.id == i)
           | .byName n => s.wallets.filter (fun (x : DbWalletRow) => x.name == n)).head?
          = some w) :
    ((∃ k ∈ s.keys, k.wallet_id = w.id ∧ k.balance ≠ 0) →
      ∃ kid, delete_wallet term false s = Res.err (.keyHasBalance kid) s)
    ∧ (∃ n s', delete_wallet term true s = Res.ok n s'
        ∧ (∀ k ∈ s'.keys, k.wallet_id ≠ w.id)
        ∧ (∀ k ∈ s.keys, k.wallet_id ≠ w.id → k ∈ s'.keys)
        ∧ (∀ t ∈ s'.transactions, ∀ k ∈ s.keys, k.wallet_id = w.id → t.key_id ≠ k.id)
        ∧ (∀ t ∈ s.transactions,
            (∀ k ∈ s.keys, k.wallet_id = w.id → t.key_id ≠ k.id) →
            t ∈ s'.transactions)
        ∧ w ∉ s'.wallets) := by
  constructor
  · intro ⟨k, hk, hkw, hkb⟩
    have hfind : ((s.keys.filter (fun x => x.wallet_id == w.id)).find?
        (fun x => x.balance != 0)).isSome := by
      rw [List.find?_isSome]
      refine ⟨k, List.mem_filter.mpr ⟨hk, by simp [hkw]⟩, by simp [hkb]⟩
    cases hf : (s.keys.filter (fun x => x.wallet_id == w.id)).find?
        (fun x => x.balance != 0) with
    | none => rw [hf] at hfind; simp at hfind
    | some k' =>
      refine ⟨k'.id, ?_⟩
      simp only [delete_wallet, hw, Bool.false_eq_true, if_false, hf]
  · cases term with
    | byId i =>
      have hw2 : (s.wallets.filter (fun (x : DbWalletRow) => x.id == i)).head?
          = some w := hw
      have hwin : w ∈ s.wallets.filter (fun (x : DbWalletRow) => x.id == i) := by
        cases hq : s.wallets.filter (fun (x : DbWalletRow) => x.id == i) with
        | nil => rw [hq] at hw2; simp at hw2
        | cons a t =>
          rw [hq] at hw2
          simp only [List.head?_cons, Option.some.injEq] at hw2
          rw [← hw2]
          exact List.mem_cons_self a t
      refine ⟨(s.wallets.filter (fun (x : DbWalletRow) => x.id == i)).length,
        { wallets := s.wallets.filter (fun (x : DbWalletRow) => x.id != i),
          keys := s.keys.filter (fun (k : DbKeyRow) => k.wallet_id != w.id),
          transactions := cascade_ledger s.transactions
            (s.keys.filter (fun (k : DbKeyRow) => k.wallet_id == w.id)),
          next_key_id := s.next_key_id, next_tx_id := s.next_tx_id },
        ?_, ?_, ?_, ?_, ?_, ?_⟩
      · simp [delete_wallet, hw2]
      · intro k hk
        have := (List.mem_filter.mp hk).2
        simpa using this
      · intro k hk hkw
        exact List.mem_filter.mpr ⟨hk, by simpa using hkw⟩
      · intro t ht k hk hkw
        have := (List.mem_filter.mp ht).2
        simp only [cascade_ledger, Bool.not_eq_eq_eq_not, Bool.not_true,
          List.any_eq_false] at this
        have hkmem : k ∈ s.keys.filter (fun x => x.wallet_id == w.id) :=
          List.mem_filter.mpr ⟨hk, by simp [hkw]⟩
        intro heq
        have := this k hkmem
        simp [heq] at this
      · intro t ht hno
        refine List.mem_filter.mpr ⟨ht, ?_⟩
        simp only [Bool.not_eq_eq_eq_not, Bool.not_true, List.any_eq_false]
        intro k hk
        have hkw := (List.mem_filter.mp hk).2
        have hkm := (List.mem_filter.mp hk).1
        have := hno k hkm (by simpa using hkw)
        simp [this]
        intro h
        exact this h.symm
      · intro hmem
        have h1 := (List.mem_filter.mp hwin).2
        have h2 := (List.mem_filter.mp hmem).2
        simp at h1 h2
        exact h2 h1
    | byName n =>
      have hw2 : (s.wallets.filter (fun (x : DbWalletRow) => x.name == n)).head?
          = some w := hw
      have hwin : w ∈ s.wallets.filter (fun (x : DbWalletRow) => x.name == n) := by
        cases hq : s.wallets.filter (fun (x : DbWalletRow) => x.name == n) with
        | nil => rw [hq] at hw2; simp at hw2
        | cons a t =>
          rw [hq] at hw2
          simp only [List.head?_cons, Option.some.injEq] at hw2
          rw [← hw2]
          exact List.mem_cons_self a t
      refine ⟨(s.wallets.filter (fun (x : DbWalletRow) => x.name == n)).length,
        { wallets := s.wallets.filter (fun (x : DbWalletRow) => x.name != n),
          keys := s.keys.filter (fun (k : DbKeyRow) => k.wallet_id != w.id),
          transactions := cascade_ledger s.transactions
            (s.keys.filter (fun (k : DbKeyRow) => k.wallet_id == w.id)),
          next_key_id := s.next_key_id, next_tx_id := s.next_tx_id },
        ?_, ?_, ?_, ?_, ?_, ?_⟩
      · simp [delete_wallet, hw2]
      · intro k hk
        have := (List.mem_filter.mp hk).2
        simpa using this
      · intro k hk hkw
        exact List.mem_filter.mpr ⟨hk, by simpa using hkw⟩
      · intro t ht k hk hkw
        have := (List.mem_filter.mp ht).2
        simp only [cascade_ledger, Bool.not_eq_eq_eq_not, Bool.not_true,
          List.any_eq_false] at this
        have hkmem : k ∈ s.keys.filter (fun x => x.wallet_id == w.id) :=
          List.mem_filter.mpr ⟨hk, by simp [hkw]⟩
        intro heq
        have := this k hkmem
        simp [heq] at this
      · intro t ht hno
        refine List.mem_filter.mpr ⟨ht, ?_⟩
        simp only [Bool.not_eq_eq_eq_not, Bool.not_true, List.any_eq_false]
        intro k hk
        have hkw := (List.mem_filter.mp hk).2
        have hkm := (List.mem_filter.mp hk).1
        have := hno k hkm (by simpa using hkw)
        simp [this]
        intro h
        exact this h.symm
      · intro hmem
        have h1 := (List.mem_filter.mp hwin).2
        have h2 := (List.mem_filter.mp hmem).2
        simp at h1 h2
        exact h2 h1

/-- The wallet row of `demoStore1`. -/
def demoWalletRow : DbWalletRow :=
  { id := 1, name := "w1".data, owner := [], network_name := "testnet".data,
    purpose := 44, main_key_id := 1, balance := 0 }

/-- `demoStore1` with a cached balance of 5 on the account key and one
ledger row owned by the master key. -/
def demoStoreBal : Store :=
  { wallets := demoStore1.wallets,
    keys := [
      demoRow 1 1 [['m']] 44 0 0 0 0 "m".data 0,
      demoRow 2 1 [['m'], "44'".data] 44 0 1 0 1 "m/44'".data 0,
      demoRow 3 1 [['m'], "44'".data, "1'".data] 44 0 2 0 2 "m/44'/1'".data 0,
      demoRow 4 1 [['m'], "44'".data, "1'".data, "0'".data] 44 0 3 0 3
        "m/44'/1'/0'".data 5 ],
    transactions := [demoUtxo 1 7],
    next_key_id := 5, next_tx_id := 2 }

/-- C7 witness: wallet 1 of `demoStoreBal` owns key 4 with balance 5;
deleting without force fails and leaves the store untouched, deleting
with force removes the wallet row, every owned key row and the owned
ledger row. -/
theorem delete_wallet_force_and_balance_witness :
    (∃ kid, delete_wallet (.byId 1) false demoStoreBal
      = Res.err (.keyHasBalance kid) demoStoreBal)
    ∧ (∃ n s', delete_wallet (.byId 1) true demoStoreBal = Res.ok n s'
        ∧ (∀ k ∈ s'.keys, k.wallet_id ≠ demoWalletRow.id)
        ∧ (∀ k ∈ demoStoreBal.keys, k.wallet_id ≠ demoWalletRow.id → k ∈ s'.keys)
        ∧ (∀ t ∈ s'.transactions, ∀ k ∈ demoStoreBal.keys,
            k.wallet_id = demoWalletRow.id → t.key_id ≠ k.id)
        ∧ (∀ t ∈ demoStoreBal.transactions,
            (∀ k ∈ demoStoreBal.keys,
              k.wallet_id = demoWalletRow.id → t.key_id ≠ k.id) →
            t ∈ s'.transactions)
        ∧ demoWalletRow ∉ s'.wallets) := by
  have h := delete_wallet_force_and_balance (.byId 1) demoStoreBal demoWalletRow
    (by decide)
  exact ⟨h.1 (by decide), h.2⟩

/-! ## Parent links: C8 -/

/-- A store holding wallet 1 with only its master key (id 1, path `m`). -/
def demoStoreM : Store :=
  { wallets := [demoWalletRow],
    keys := [demoRow 1 1 [['m']] 44 0 0 0 0 "m".data 0],
    transactions := [], next_key_id := 2, next_tx_id := 1 }

/-- C8: the first node of every derivation chain is stored with parent
id 0.  Deriving the purpose node `m/44'` from the existing master key
(id 1) inserts a depth-1 — hence non-root — node whose stored
`parent_id` is 0, not 1: `_create_keys_from_path` initializes
`parent_id = 0` (`wallets.py:352`) and only updates it after the first
insert, so the stored parent id does not reference the node the child
was derived from (id 1, which exists — second conjunct). -/
theorem create_keys_parent_id_zero :
    (match create_keys_from_path demoCtx 1 (⟨[['m']]⟩ : DemoKey) ["44'".data] 1 0
        ("testnet".data) ("p".data) ("m".data) 0 44 demoStoreM with
     | Res.ok (kid, _) s' => (getKeyById s' kid).map (fun r => (r.depth, r.parent_id))
     | Res.err _ _ => none) = some (1, 0)
    ∧ (getKeyById demoStoreM 1).map (fun r => r.id) = some 1 :=
  ⟨rfl, rfl⟩

/-! ## Ledger synchronization: C10 -/

/-- At most one ledger row per transaction hash. -/
def uniqHash (l : List DbTransactionRow) : Prop :=
  l.Pairwise (fun a b => a.tx_hash ≠ b.tx_hash)

/-- Value of the per-key balance dictionary at a key id (0 when absent). -/
def balLookup (b : List (Nat × Nat)) (kid : Nat) : Nat :=
  match b.find? (fun p => p.1 == kid) with
  | some p => p.2
  | none => 0

/-- Total value the import loop attributes to key id `kid`: the values
of the service UTXOs whose address lookup resolves to that key. -/
def contrib (keys : List DbKeyRow) (svc : List SvcUtxo) (kid : Nat) : Nat :=
  ((svc.filter (fun u =>
      match scalar (keys.filter (fun r => r.address == u.address)) with
      | .ok (some key) => key.id == kid
      | _ => false)).map (·.value)).sum

theorem scalar_ok_some {α : Type} {l : List α} {x : α}
    (h : scalar l = .ok (some x)) : l = [x] := by
  rcases l with _ | ⟨a, _ | ⟨b, t⟩⟩
  · cases h
  · unfold scalar at h
    cases h
    rfl
  · cases h

theorem contrib_cons (keys : List DbKeyRow) (u : SvcUtxo) (rest : List SvcUtxo)
    (kid : Nat) :
    contrib keys (u :: rest) kid
      = (match scalar (keys.filter (fun r => r.address == u.address)) with
         | .ok (some key) => if key.id = kid then u.value else 0
         | _ => 0) + contrib keys rest kid := by
  unfold contrib
  rw [List.filter_cons]
  cases hsc : scalar (keys.filter (fun r => r.address == u.address)) with
  | error e => simp [hsc]
  | ok ko =>
    cases ko with
    | none => simp [hsc]
    | some key =>
      by_cases hk : key.id = kid
      · simp [hsc, hk]
      · simp [hsc, hk]

theorem balLookup_balAdd (b : List (Nat × Nat)) (kid v kid' : Nat) :
    balLookup (balAdd b kid v) kid'
      = balLookup b kid' + (if kid' = kid then v else 0) := by
  unfold balAdd
  by_cases hmem : b.any (fun p => p.1 == kid)
  · rw [if_pos hmem]
    unfold balLookup
    rw [List.find?_map]
    have hcomp : ((fun (p : Nat × Nat) => p.1 == kid')
        ∘ (fun (p : Nat × Nat) => if p.1 == kid then (p.1, p.2 + v) else p))
        = (fun (p : Nat × Nat) => p.1 == kid') := by
      funext x
      by_cases hx : x.1 == kid <;> simp [hx, Function.comp]
    rw [hcomp]
    cases hf : b.find? (fun p => p.1 == kid') with
    | none =>
      have hne : kid' ≠ kid := by
        intro he
        subst he
        obtain ⟨x, hx, hpx⟩ := List.any_eq_true.mp hmem
        rw [List.find?_eq_none] at hf
        exact hf x hx hpx
      simp [hne]
    | some p =>
      have hp := List.find?_some hf
      simp only [beq_iff_eq] at hp
      by_cases he : kid' = kid
      · subst he
        simp [hp]
      · simp [hp, he]
  · rw [if_neg hmem]
    unfold balLookup
    rw [List.find?_append]
    cases hf : b.find? (fun p => p.1 == kid') with
    | some p =>
      have hp := List.find?_some hf
      simp only [beq_iff_eq] at hp
      have hne : kid' ≠ kid := by
        intro he
        subst he
        have hx := List.mem_of_find?_eq_some hf
        exact absurd (List.any_eq_true.mpr ⟨p, hx, by simp [hp]⟩) hmem
      simp [Option.or, hne]
    | none =>
      by_cases he : kid' = kid
      · subst he
        simp [Option.or, List.find?]
      · have hne2 : ¬ (kid == kid') = true := by
          simp only [beq_iff_eq]
          exact fun h => he h.symm
        simp [Option.or, List.find?, hne2, he]

theorem balAdd_self_isSome (b : List (Nat × Nat)) (kid v : Nat) :
    ((balAdd b kid v).find? (fun p => p.1 == kid)).isSome := by
  rw [List.find?_isSome]
  unfold balAdd
  by_cases hmem : b.any (fun p => p.1 == kid)
  · rw [if_pos hmem]
    obtain ⟨x, hx, hpx⟩ := List.any_eq_true.mp hmem
    refine ⟨(x.1, x.2 + v), ?_, by simpa using hpx⟩
    refine List.mem_map.mpr ⟨x, hx, ?_⟩
    simp [hpx]
  · rw [if_neg hmem]
    exact ⟨(kid, v), List.mem_append_right _ (by simp), by simp⟩

theorem balAdd_isSome_mono {b : List (Nat × Nat)} {kid' : Nat}
    (h : (b.find? (fun p => p.1 == kid')).isSome) (kid v : Nat) :
    ((balAdd b kid v).find? (fun p => p.1 == kid')).isSome := by
  rw [List.find?_isSome] at h ⊢
  obtain ⟨x, hx, hpx⟩ := h
  unfold balAdd
  by_cases hmem : b.any (fun p => p.1 == kid)
  · rw [if_pos hmem]
    by_cases hxk : (x.1 == kid) = true
    · exact ⟨(x.1, x.2 + v), List.mem_map.mpr ⟨x, hx, by simp [hxk]⟩,
        by simpa using hpx⟩
    · exact ⟨x, List.mem_map.mpr ⟨x, hx, by simp [hxk]⟩, hpx⟩
  · rw [if_neg hmem]
    exact ⟨x, List.mem_append_left _ hx, hpx⟩

theorem balAdd_pairwise {b : List (Nat × Nat)}
    (h : b.Pairwise (fun p q => p.1 ≠ q.1)) (kid v : Nat) :
    (balAdd b kid v).Pairwise (fun p q => p.1 ≠ q.1) := by
  unfold balAdd
  by_cases hmem : b.any (fun p => p.1 == kid)
  · rw [if_pos hmem, List.pairwise_map]
    refine h.imp ?_
    intro a c hac
    by_cases ha : (a.1 == kid) = true <;> by_cases hc : (c.1 == kid) = true <;>
      simp [ha, hc, hac]
  · rw [if_neg hmem, List.pairwise_append]
    refine ⟨h, List.pairwise_singleton _ _, ?_⟩
    intro a ha p hp
    have hp2 : p = (kid, v) := by simpa using hp
    subst hp2
    intro heq
    exact hmem (List.any_eq_true.mpr ⟨a, ha, by simp [heq]⟩)

/-- The ledger row `importLoop` inserts for a service UTXO owned by
`key` (`wallets.py:675-677`). -/
def importedRow (s : Store) (key : DbKeyRow) (u : SvcUtxo) : DbTransactionRow :=
  { id := s.next_tx_id, key_id := key.id, tx_hash := u.tx_hash,
    confirmations := u.confirmations, output_n := u.output_n, index := u.index,
    value := u.value, script := u.script, spend := false }

theorem importLoop_spec :
    ∀ (svc : List SvcUtxo) (s : Store) (b : List (Nat × Nat)) (c : Nat)
      (s2 : Store) (b2 : List (Nat × Nat)) (c2 : Nat),
      importLoop s b c svc = .ok (s2, b2, c2) →
      s2.keys = s.keys
      ∧ (uniqHash s.transactions → uniqHash s2.transactions)
      ∧ (∀ t' ∈ s2.transactions,
          t' ∈ s.transactions ∨ ∀ t ∈ s.transactions, t.tx_hash ≠ t'.tx_hash)
      ∧ (∀ kid, balLookup b2 kid = balLookup b kid + contrib s.keys svc kid)
      ∧ (∀ kid, (b.find? (fun p => p.1 == kid)).isSome →
          (b2.find? (fun p => p.1 == kid)).isSome)
      ∧ (∀ u ∈ svc, ∀ key, scalar (s.keys.filter (fun r => r.address == u.address))
            = .ok (some key) → (b2.find? (fun p => p.1 == key.id)).isSome)
      ∧ (b.Pairwise (fun p q => p.1 ≠ q.1) → b2.Pairwise (fun p q => p.1 ≠ q.1))
      ∧ (∀ u ∈ svc, ∃ key,
          scalar (s.keys.filter (fun r => r.address == u.address)) = .ok (some key)) := by
  intro svc
  induction svc with
  | nil =>
    intro s b c s2 b2 c2 h
    unfold importLoop at h
    cases h
    refine ⟨rfl, fun hu => hu, fun t' ht' => Or.inl ht', ?_, fun _ h => h, ?_, fun h => h, ?_⟩
    · intro kid
      simp [contrib]
    · intro u hu
      exact absurd hu (List.not_mem_nil u)
    · intro u hu
      exact absurd hu (List.not_mem_nil u)
  | cons u rest ih =>
    intro s b c s2 b2 c2 h
    unfold importLoop at h
    cases hsc : scalar (s.keys.filter (fun r => r.address == u.address)) with
    | error e => rw [hsc] at h; cases h
    | ok ko =>
      rw [hsc] at h
      cases ko with
      | none => cases h
      | some key =>
        simp only [] at h
        by_cases hsk : (s.transactions.any (fun t => t.tx_hash == u.tx_hash)) = true
        · rw [if_pos hsk] at h
          obtain ⟨hk, hu, ht, hbal, hmono, hsvc, hpw, hall⟩ :=
            ih s (balAdd b key.id u.value) c s2 b2 c2 h
          refine ⟨hk, hu, ht, ?_, ?_, ?_, ?_, ?_⟩
          · intro kid
            rw [hbal kid, balLookup_balAdd, contrib_cons, hsc]
            by_cases hkk : key.id = kid
            · simp [hkk]
              omega
            · have : ¬ kid = key.id := fun hh => hkk hh.symm
              simp [hkk, this]
          · intro kid hs
            exact hmono kid (balAdd_isSome_mono hs key.id u.value)
          · intro u' hu' key' hkey'
            rcases List.mem_cons.mp hu' with he | hu'
            · rw [he, hsc] at hkey'
              cases hkey'
              exact hmono _ (balAdd_self_isSome b key.id u.value)
            · exact hsvc u' hu' key' hkey'
          · intro hb
            exact hpw (balAdd_pairwise hb key.id u.value)
          · intro u' hu'
            rcases List.mem_cons.mp hu' with he | hu'
            · subst he
              exact ⟨key, hsc⟩
            · exact hall u' hu'
        · rw [if_neg hsk] at h
          obtain ⟨hk, hu, ht, hbal, hmono, hsvc, hpw, hall⟩ :=
            ih _ (balAdd b key.id u.value) (c + 1) s2 b2 c2 h
          have hfresh : ∀ t ∈ s.transactions, t.tx_hash ≠ u.tx_hash := by
            intro t htm
            have := List.any_eq_false.mp (eq_false_of_ne_true hsk) t htm
            simpa using this
          refine ⟨hk, ?_, ?_, ?_, ?_, ?_, ?_, ?_⟩
          · intro huni
            refine hu ?_
            unfold uniqHash
            rw [List.pairwise_append]
            refine ⟨huni, List.pairwise_singleton _ _, ?_⟩
            intro a ha p hp
            have hp2 : p = importedRow s key u := by simpa using hp
            subst hp2
            exact hfresh a ha
          · intro t' ht'
            rcases ht t' ht' with hmem | hfr
            · rcases List.mem_append.mp hmem with hmem | hmem
              · exact Or.inl hmem
              · have hp2 : t' = importedRow s key u := by simpa using hmem
                subst hp2
                exact Or.inr hfresh
            · refine Or.inr ?_
              intro t htm
              exact hfr t (List.mem_append_left _ htm)
          · intro kid
            rw [hbal kid, balLookup_balAdd, contrib_cons, hsc]
            by_cases hkk : key.id = kid
            · simp [hkk]
              omega
            · have : ¬ kid = key.id := fun hh => hkk hh.symm
              simp [hkk, this]
          · intro kid hs
            exact hmono kid (balAdd_isSome_mono hs key.id u.value)
          · intro u' hu' key' hkey'
            rcases List.mem_cons.mp hu' with he | hu'
            · rw [he, hsc] at hkey'
              cases hkey'
              exact hmono _ (balAdd_self_isSome b key.id u.value)
            · exact hsvc u' hu' key' hkey'
          · intro hb
            exact hpw (balAdd_pairwise hb key.id u.value)
          · intro u' hu'
            rcases List.mem_cons.mp hu' with he | hu'
            · subst he
              exact ⟨key, hsc⟩
            · exact hall u' hu'

theorem applyBalances_spec :
    ∀ (b : List (Nat × Nat)) (keys keys2 : List DbKeyRow) (tot : Nat),
      applyBalances b keys = .ok (keys2, tot) →
      (∀ k2 ∈ keys2, ∃ k ∈ keys, k2.id = k.id ∧ k2.address = k.address
        ∧ (k2.balance = k.balance ∨ (b.find? (fun p => p.1 == k2.id)).isSome))
      ∧ (b.Pairwise (fun p q => p.1 ≠ q.1) →
         ∀ k2 ∈ keys2, ∀ p, b.find? (fun q => q.1 == k2.id) = some p →
           k2.balance = p.2) := by
  intro b
  induction b with
  | nil =>
    intro keys keys2 tot h
    unfold applyBalances at h
    cases h
    constructor
    · intro k2 hk2
      exact ⟨k2, hk2, rfl, rfl, Or.inl rfl⟩
    · intro _ k2 _ p hp
      simp at hp
  | cons e rest ih =>
    obtain ⟨kid, v⟩ := e
    intro keys keys2 tot h
    unfold applyBalances at h
    cases hsc : scalar (keys.filter (fun r => r.id == kid)) with
    | error e2 => rw [hsc] at h; cases h
    | ok ko =>
      rw [hsc] at h
      cases ko with
      | none => cases h
      | some krow =>
        simp only [] at h
        cases hap : applyBalances rest
            (keys.map (fun r => if r.id == kid then { r with balance := v } else r)) with
        | error e3 => rw [hap] at h; cases h
        | ok kt =>
          obtain ⟨ks', tot'⟩ := kt
          rw [hap] at h
          cases h
          obtain ⟨ih1, ih2⟩ := ih _ keys2 tot' hap
          constructor
          · intro k2 hk2
            obtain ⟨k', hk', hid, haddr, hbal⟩ := ih1 k2 hk2
            obtain ⟨k, hk, hkk⟩ := List.mem_map.mp hk'
            by_cases hmatch : (k.id == kid) = true
            · have hk'eq : k' = { k with balance := v } := by
                rw [← hkk]; simp [hmatch]
              refine ⟨k, hk, ?_, ?_, Or.inr ?_⟩
              · rw [hid, hk'eq]
              · rw [haddr, hk'eq]
              · have hhead : ((kid, v).1 == k2.id) = true := by
                  simp only [beq_iff_eq] at hmatch ⊢
                  have : k'.id = k.id := by rw [hk'eq]
                  omega
                rw [List.find?_cons_of_pos (p := fun (q : Nat × Nat) => q.1 == k2.id) _ hhead]
                rfl
            · have hk'eq : k' = k := by
                rw [← hkk]; simp [hmatch]
              subst hk'eq
              rcases hbal with hbal | htouch
              · exact ⟨k', hk, hid, haddr, Or.inl hbal⟩
              · refine ⟨k', hk, hid, haddr, Or.inr ?_⟩
                by_cases hhead : ((kid, v).1 == k2.id) = true
                · rw [List.find?_cons_of_pos (p := fun (q : Nat × Nat) => q.1 == k2.id) _ hhead]
                  rfl
                · rw [List.find?_cons_of_neg (p := fun (q : Nat × Nat) => q.1 == k2.id) _ hhead]
                  exact htouch
          · intro hpw k2 hk2 p hp
            obtain ⟨hpw1, hpw2⟩ := List.pairwise_cons.mp hpw
            by_cases hhead : ((kid, v).1 == k2.id) = true
            · rw [List.find?_cons_of_pos (p := fun (q : Nat × Nat) => q.1 == k2.id) _ hhead] at hp
              cases hp
              have hrnone : rest.find? (fun q => q.1 == k2.id) = none := by
                rw [List.find?_eq_none]
                intro q hq
                have hne := hpw1 q hq
                simp only [beq_iff_eq] at hhead ⊢
                intro he
                exact hne (by omega)
              obtain ⟨k', hk', hid, haddr, hbal⟩ := ih1 k2 hk2
              rcases hbal with hbal | htouch
              · obtain ⟨k, hk, hkk⟩ := List.mem_map.mp hk'
                have hpid : k'.id = k.id := by
                  rw [← hkk]
                  by_cases hc : (k.id == kid) = true <;> simp [hc]
                have hkid : (k.id == kid) = true := by
                  simp only [beq_iff_eq] at hhead ⊢
                  omega
                have hk'v : k'.balance = v := by
                  rw [← hkk]
                  simp [hkid]
                rw [hbal, hk'v]
              · rw [hrnone] at htouch
                simp at htouch
            · rw [List.find?_cons_of_neg (p := fun (q : Nat × Nat) => q.1 == k2.id) _ hhead] at hp
              exact ih2 hpw2 k2 hk2 p hp

/-- C10: during `updateutxos`, a reported UTXO is skipped — not
inserted — whenever any stored ledger row already has its transaction
hash (the output index is not compared), so a sync preserves the
at-most-one-row-per-hash invariant and never records a second output of
the same transaction; the skipped value still reaches the owning key's
cached balance, which ends up as the total value of all reported UTXOs
at that key's address.  (Hypotheses: the invariant held before the sync,
key ids are unique — both maintained by the module itself — and the sync
succeeded.) -/
theorem updateutxos_skip_same_hash (w : HDW) (account_id key_id : Option Nat)
    (svc : List SvcUtxo) (s : Store) (r : Unit) (s' : Store)
    (huni : uniqHash s.transactions)
    (hids : s.keys.Pairwise (fun a b => a.id ≠ b.id))
    (hrun : updateutxos w account_id key_id svc s = Res.ok r s') :
    uniqHash s'.transactions
    ∧ (∀ u ∈ svc, (∃ t ∈ s.transactions, t.tx_hash = u.tx_hash) →
        ∀ t' ∈ s'.transactions, t'.tx_hash = u.tx_hash → t' ∈ s.transactions)
    ∧ (∀ k2 ∈ s'.keys, (∃ u ∈ svc, u.address = k2.address) →
        k2.balance
          = ((svc.filter (fun u => u.address == k2.address)).map (·.value)).sum) := by
  unfold updateutxos at hrun
  have hs1 : { s with transactions := s.transactions.filter (fun _t => true) } = s := by
    rw [List.filter_true]
  rw [hs1] at hrun
  simp only [] at hrun
  cases himp : importLoop s [] 0 svc with
  | error e => rw [himp] at hrun; cases hrun
  | ok tup =>
    obtain ⟨s2, b2, c2⟩ := tup
    rw [himp] at hrun
    simp only [] at hrun
    cases hab : applyBalances b2 s2.keys with
    | error e => rw [hab] at hrun; cases hrun
    | ok kt =>
      obtain ⟨keys2, total⟩ := kt
      rw [hab] at hrun
      simp only [] at hrun
      cases hrun
      obtain ⟨hk, hu, ht, hbal, _hmono, hsvc, hpw, hall⟩ :=
        importLoop_spec svc s [] 0 s2 b2 c2 himp
      obtain ⟨hA, hB⟩ := applyBalances_spec b2 s2.keys keys2 total hab
      refine ⟨hu huni, ?_, ?_⟩
      · intro u _humem hex t' ht' hhash
        rcases ht t' ht' with hmem | hfr
        · exact hmem
        · obtain ⟨t, htm, hth⟩ := hex
          exact absurd (hth.trans hhash.symm) (hfr t htm)
      · rintro k2 hk2 ⟨u, humem, huaddr⟩
        obtain ⟨k, hkmem2, hid, haddr, _⟩ := hA k2 hk2
        rw [hk] at hkmem2
        obtain ⟨key_u, hkeyu⟩ := hall u humem
        have hfil := scalar_ok_some hkeyu
        have hkin : k ∈ s.keys.filter (fun r => r.address == u.address) := by
          refine List.mem_filter.mpr ⟨hkmem2, ?_⟩
          simp [← haddr, huaddr]
        rw [hfil] at hkin
        have hkeq : k = key_u := by simpa using hkin
        subst hkeq
        have hiso := hsvc u humem k hkeyu
        rw [← hid] at hiso
        cases hf : b2.find? (fun p => p.1 == k2.id) with
        | none => rw [hf] at hiso; simp at hiso
        | some p =>
          have hpw2 := hpw List.Pairwise.nil
          have hbval := hB hpw2 k2 hk2 p hf
          have hlook : balLookup b2 k2.id = p.2 := by
            unfold balLookup
            rw [hf]
          have hc := hbal k2.id
          have h0 : balLookup [] k2.id = 0 := rfl
          rw [h0, Nat.zero_add] at hc
          have hk2bal : k2.balance = contrib s.keys svc k2.id := by
            rw [hbval, ← hlook, hc]
          rw [hk2bal]
          unfold contrib
          have hfeq : svc.filter (fun u' =>
              match scalar (s.keys.filter (fun r2 => r2.address == u'.address)) with
              | .ok (some key) => key.id == k2.id
              | _ => false)
              = svc.filter (fun u' => u'.address == k2.address) := by
            apply List.filter_congr
            intro u' hu'
            obtain ⟨key', hkey'⟩ := hall u' hu'
            rw [hkey']
            have hfil' := scalar_ok_some hkey'
            have hkey'mem : key' ∈ s.keys := by
              have hm : key' ∈ s.keys.filter (fun r2 => r2.address == u'.address) := by
                rw [hfil']
                simp
              exact (List.mem_filter.mp hm).1
            have hkey'addr : key'.address = u'.address := by
              have hm : key' ∈ s.keys.filter (fun r2 => r2.address == u'.address) := by
                rw [hfil']
                simp
              have := (List.mem_filter.mp hm).2
              simpa using this
            by_cases hidq : key'.id = k2.id
            · have hkeq2 : key' = k := by
                by_contra hne
                have hsym : Symmetric (fun (a b : DbKeyRow) => a.id ≠ b.id) :=
                  fun a b hab hba => hab hba.symm
                have := hids.forall hsym hkey'mem hkmem2 hne
                exact this (by rw [hidq, hid])
              have : u'.address = k2.address := by
                rw [← hkey'addr, hkeq2, ← haddr]
              simp [hidq, this]
            · have : u'.address ≠ k2.address := by
                intro haddr'
                have hkin' : k ∈ s.keys.filter (fun r2 => r2.address == u'.address) := by
                  refine List.mem_filter.mpr ⟨hkmem2, ?_⟩
                  simp [haddr', ← haddr]
                rw [hfil'] at hkin'
                have hke : k = key' := by simpa using hkin'
                exact hidq (by rw [← hke, ← hid])
              simp [hidq, this]
          rw [hfeq]

/-- One service-reported UTXO at the master key's address, a second
output of the already-stored transaction `tx1` (different output index),
worth 50. -/
def svcDemo : List SvcUtxo :=
  [{ address := "addr:m".data, tx_hash := "tx".data ++ natStr 1,
     confirmations := 3, output_n := 5, index := 0, value := 50, script := [] }]

/-- The store `updateutxos` produces from `demoStoreBal` and `svcDemo`:
the reported row is skipped (same transaction hash), its value lands on
key 1's cached balance and on the wallet total. -/
def demoStoreBalAfter : Store :=
  { wallets := [{ id := 1, name := "w1".data, owner := [],
                  network_name := "testnet".data, purpose := 44,
                  main_key_id := 1, balance := 50 }],
    keys := [
      demoRow 1 1 [['m']] 44 0 0 0 0 "m".data 50,
      demoRow 2 1 [['m'], "44'".data] 44 0 1 0 1 "m/44'".data 0,
      demoRow 3 1 [['m'], "44'".data, "1'".data] 44 0 2 0 2 "m/44'/1'".data 0,
      demoRow 4 1 [['m'], "44'".data, "1'".data, "0'".data] 44 0 3 0 3
        "m/44'/1'/0'".data 5 ],
    transactions := [demoUtxo 1 7],
    next_key_id := 5, next_tx_id := 2 }

/-- C10 witness: syncing `demoStoreBal` against `svcDemo` keeps the
single ledger row (the reported second output of `tx1` is skipped), yet
key 1's balance becomes 50. -/
theorem updateutxos_skip_same_hash_witness :
    uniqHash demoStoreBalAfter.transactions
    ∧ (∀ u ∈ svcDemo, (∃ t ∈ demoStoreBal.transactions, t.tx_hash = u.tx_hash) →
        ∀ t' ∈ demoStoreBalAfter.transactions, t'.tx_hash = u.tx_hash →
          t' ∈ demoStoreBal.transactions)
    ∧ (∀ k2 ∈ demoStoreBalAfter.keys, (∃ u ∈ svcDemo, u.address = k2.address) →
        k2.balance
          = ((svcDemo.filter (fun u => u.address == k2.address)).map (·.value)).sum) :=
  updateutxos_skip_same_hash wDemo none none svcDemo demoStoreBal () demoStoreBalAfter
    (by unfold uniqHash; exact List.pairwise_singleton _ _)
    (by decide)
    (by rfl)

end BLWallets
